import Mathlib

/-!
Verification of the ChatGPT-buddy D-Bus bridge (src/research/dbus-monitor-poc.py).

The development shallowly embeds the bridge's data path:

* the JSON codec the script uses (`json.dumps` with its default separators and
  `ensure_ascii=True`, and `json.loads`), modelled over an explicit `Json` value
  type whose numbers are integers.  Documented divergences from CPython's
  `json`: non-integer number literals (a fraction or exponent part) and the
  extended literals `NaN`/`Infinity` are treated as parse failures, since the
  program never produces them;
* the Chrome native-messaging frame layer (4-byte little-endian length, then
  the UTF-8 JSON body) of `send_to_extension` and `read_native_messages`;
* the log ring buffer of `log_message`;
* the message dispatch of `handle_extension_message`, `emit_dbus_signal`,
  `emit_automation_signal` and `ExecuteAutomation`.

Text is represented as lists of Unicode code points (`List Nat`); byte streams
are also `List Nat`.  All definitions are structural or fuel-based so that they
evaluate by kernel reduction.
-/

set_option maxRecDepth 8192

/-- JSON values.  Arrays and objects are encoded as spines (`arrNil`/`arrCons`,
`objNil`/`objCons`) so that every recursion in this file is plainly structural.
Strings and object keys are lists of Unicode code points. -/
inductive Json : Type
  | null : Json
  | bool : Bool → Json
  | num : Int → Json
  | str : List Nat → Json
  | arrNil : Json
  | arrCons : Json → Json → Json
  | objNil : Json
  | objCons : List Nat → Json → Json → Json
deriving DecidableEq

/-- Whether a value is a JSON object (a Python dict after decoding). -/
def isObj : Json → Bool
  | Json.objNil => true
  | Json.objCons _ _ _ => true
  | _ => false

/-- Whether a value is an array spine node. -/
def isArr : Json → Bool
  | Json.arrNil => true
  | Json.arrCons _ _ => true
  | _ => false

/-- A Unicode scalar value: a code point that is not a surrogate.  Python can
round-trip lone surrogates only partially (a high/low pair of escapes is
re-combined by `json.loads`), so well-formed messages use scalar values. -/
def scalarOKb (c : Nat) : Bool :=
  decide (c < 1114112) && !(decide (55296 ≤ c) && decide (c ≤ 57343))

/-- Well-formedness of an embedded JSON value: array/object spines are proper
spines and all string content consists of Unicode scalar values. -/
def wfJ : Json → Bool
  | Json.null => true
  | Json.bool _ => true
  | Json.num _ => true
  | Json.str s => s.all scalarOKb
  | Json.arrNil => true
  | Json.arrCons v t => wfJ v && isArr t && wfJ t
  | Json.objNil => true
  | Json.objCons k v t => k.all scalarOKb && wfJ v && isObj t && wfJ t

/-- Lower-case hexadecimal digit, as emitted by Python's `"\u%04x"` format. -/
def hexDig (d : Nat) : Nat := if d < 10 then 48 + d else 87 + d

/-- Four lower-case hex digits of a value below 0x10000. -/
def hex4 (n : Nat) : List Nat :=
  [hexDig (n / 4096 % 16), hexDig (n / 256 % 16), hexDig (n / 16 % 16), hexDig (n % 16)]

/-- Value of one hex digit, upper or lower case, as accepted by the scanner. -/
def hexVal (c : Nat) : Option Nat :=
  if 48 ≤ c ∧ c ≤ 57 then some (c - 48)
  else if 97 ≤ c ∧ c ≤ 102 then some (c - 87)
  else if 65 ≤ c ∧ c ≤ 70 then some (c - 55)
  else none

/-- Escape of a single character, following `json.encoder`'s ASCII encoder:
`"` and `\` and the short control escapes get two-character escapes, all other
control characters and all code points outside 0x20–0x7E get `\uXXXX` escapes,
with astral code points emitted as a surrogate pair. -/
def escChar (c : Nat) : List Nat :=
  if c = 34 then [92, 34]
  else if c = 92 then [92, 92]
  else if c = 8 then [92, 98]
  else if c = 9 then [92, 116]
  else if c = 10 then [92, 110]
  else if c = 12 then [92, 102]
  else if c = 13 then [92, 114]
  else if c < 32 then 92 :: 117 :: hex4 c
  else if c < 127 then [c]
  else if c < 65536 then 92 :: 117 :: hex4 c
  else 92 :: 117 :: hex4 (55296 + (c - 65536) / 1024) ++ (92 :: 117 :: hex4 (56320 + (c - 65536) % 1024))

/-- Escaped form of a whole string body (no surrounding quotes). -/
def escString : List Nat → List Nat
  | [] => []
  | c :: cs => escChar c ++ escString cs

/-- Decimal digits (most significant first) of `n`, fuelled; `natDigits` uses
fuel `n + 1`, which always suffices. -/
def natDigitsAux : Nat → Nat → List Nat
  | 0, _ => []
  | f + 1, n => if n < 10 then [48 + n] else natDigitsAux f (n / 10) ++ [48 + n % 10]

/-- Decimal digit characters of a natural number. -/
def natDigits (n : Nat) : List Nat := natDigitsAux (n + 1) n

/-- Serialization mode: `false` renders a value, `true` renders the tail of an
array/object spine (the `", "`-separated continuation). -/
def dumpsA : Bool → Json → List Nat
  | false, Json.null => [110, 117, 108, 108]
  | false, Json.bool true => [116, 114, 117, 101]
  | false, Json.bool false => [102, 97, 108, 115, 101]
  | false, Json.num i => if i < 0 then 45 :: natDigits i.natAbs else natDigits i.toNat
  | false, Json.str s => 34 :: escString s ++ [34]
  | false, Json.arrNil => [91, 93]
  | false, Json.arrCons v t => 91 :: (dumpsA false v ++ dumpsA true t) ++ [93]
  | false, Json.objNil => [123, 125]
  | false, Json.objCons k v t =>
      123 :: (34 :: escString k ++ [34] ++ (58 :: 32 :: dumpsA false v) ++ dumpsA true t) ++ [125]
  | true, Json.arrCons v t => 44 :: 32 :: (dumpsA false v ++ dumpsA true t)
  | true, Json.objCons k v t =>
      44 :: 32 :: (34 :: escString k ++ [34] ++ (58 :: 32 :: dumpsA false v) ++ dumpsA true t)
  | true, _ => []

/-- `json.dumps` with its defaults: item separator `", "`, key separator
`": "`, `ensure_ascii=True` (so the output is pure ASCII). -/
def dumpsJ (v : Json) : List Nat := dumpsA false v

/-- Skip JSON whitespace (space, tab, newline, carriage return). -/
def skipWs : List Nat → List Nat
  | [] => []
  | c :: cs => if c = 32 ∨ c = 9 ∨ c = 10 ∨ c = 13 then skipWs cs else c :: cs

/-- Digit accumulation of the number scanner: consume decimal digits,
left-to-right, into an accumulator. -/
def parseDigitsAux : List Nat → Nat → Nat × List Nat
  | [], acc => (acc, [])
  | c :: cs, acc =>
      if 48 ≤ c ∧ c ≤ 57 then parseDigitsAux cs (acc * 10 + (c - 48)) else (acc, c :: cs)

/-- Reject a number continued by `.`, `e` or `E`: the embedded number domain is
the integers, and the program never emits non-integer literals. -/
def floatGuard (n : Nat) (s : List Nat) : Option (Nat × List Nat) :=
  match s with
  | [] => some (n, [])
  | c :: _ => if c = 46 ∨ c = 101 ∨ c = 69 then none else some (n, s)

/-- Scan an unsigned decimal literal, with Python's leading-zero rule: a
number starting with `0` is just `0`. -/
def parseNum : List Nat → Option (Nat × List Nat)
  | [] => none
  | c :: cs =>
      if c = 48 then floatGuard 0 cs
      else if 49 ≤ c ∧ c ≤ 57 then
        let p := parseDigitsAux cs (c - 48)
        floatGuard p.1 p.2
      else none

/-- Attach a decoded character to the front of a string-scan result. -/
def mapConsStr (c : Nat) (r : Option (List Nat × List Nat)) : Option (List Nat × List Nat) :=
  r.map (fun p => (c :: p.1, p.2))

/-- Scan a string body after the opening quote, following `json.scanner`'s
`py_scanstring` in strict mode: unescaped control characters are rejected, the
eight short escapes and `\uXXXX` are decoded, and a high surrogate escape
immediately followed by a low surrogate escape is combined into one code
point (a lone surrogate escape stays as it is).  Fuelled; one unit of fuel is
spent per decoded character, so fuel `input.length + 1` always suffices. -/
def parseStrAux : Nat → List Nat → Option (List Nat × List Nat)
  | 0, _ => none
  | _ + 1, [] => none
  | f + 1, c :: cs =>
      if c = 34 then some ([], cs)
      else if c = 92 then
        match cs with
        | [] => none
        | e :: cs2 =>
          if e = 34 then mapConsStr 34 (parseStrAux f cs2)
          else if e = 92 then mapConsStr 92 (parseStrAux f cs2)
          else if e = 47 then mapConsStr 47 (parseStrAux f cs2)
          else if e = 98 then mapConsStr 8 (parseStrAux f cs2)
          else if e = 102 then mapConsStr 12 (parseStrAux f cs2)
          else if e = 110 then mapConsStr 10 (parseStrAux f cs2)
          else if e = 114 then mapConsStr 13 (parseStrAux f cs2)
          else if e = 116 then mapConsStr 9 (parseStrAux f cs2)
          else if e = 117 then
            match cs2 with
            | h1 :: h2 :: h3 :: h4 :: cs3 =>
              match hexVal h1, hexVal h2, hexVal h3, hexVal h4 with
              | some a, some b, some c1, some d =>
                let u := a * 4096 + b * 256 + c1 * 16 + d
                if 55296 ≤ u ∧ u ≤ 56319 then
                  match cs3 with
                  | 92 :: 117 :: g1 :: g2 :: g3 :: g4 :: cs4 =>
                    match hexVal g1, hexVal g2, hexVal g3, hexVal g4 with
                    | some a2, some b2, some c2, some d2 =>
                      let u2 := a2 * 4096 + b2 * 256 + c2 * 16 + d2
                      if 56320 ≤ u2 ∧ u2 ≤ 57343 then
                        mapConsStr (65536 + (u - 55296) * 1024 + (u2 - 56320)) (parseStrAux f cs4)
                      else
                        mapConsStr u (parseStrAux f cs3)
                    | _, _, _, _ => none
                  | _ => mapConsStr u (parseStrAux f cs3)
                else
                  mapConsStr u (parseStrAux f cs3)
              | _, _, _, _ => none
            | _ => none
          else none
      else if c < 32 then none
      else mapConsStr c (parseStrAux f cs)

/-- Literal lookahead, as in `json.scanner`'s constant parsing: match the
expected characters and advance past them. -/
def expectLit (s : List Nat) (lit : List Nat) (v : Json) : Option (Json × List Nat) :=
  if s.take lit.length = lit then some (v, s.drop lit.length) else none

/-- Scanner mode: a whole value, the inside of an array after `[`, the inside
of an array after one element, the inside of an object after an opening brace,
or the inside of an object after one member. -/
inductive PM : Type
  | val : PM
  | arrTail : PM
  | arrRest : PM
  | objTail : PM
  | objRest : PM

/-- The recursive scanner, fuelled.  `PM.arrRest`/`PM.objRest` return the
remaining spine; whitespace handling matches `json.decoder`'s `JSONArray` and
`JSONObject` (skipped after `[`, `,`,  `:`, an opening brace, and before the
closing delimiter). -/
def parseF : Nat → PM → List Nat → Option (Json × List Nat)
  | 0, _, _ => none
  | _ + 1, _, [] => none
  | f + 1, PM.val, c :: cs =>
      if c = 34 then (parseStrAux (cs.length + 1) cs).map (fun p => (Json.str p.1, p.2))
      else if c = 123 then parseF f PM.objTail (skipWs cs)
      else if c = 91 then parseF f PM.arrTail (skipWs cs)
      else if c = 45 then (parseNum cs).map (fun p => (Json.num (-(p.1 : Int)), p.2))
      else if 48 ≤ c ∧ c ≤ 57 then (parseNum (c :: cs)).map (fun p => (Json.num (p.1 : Int), p.2))
      else if c = 110 then expectLit cs [117, 108, 108] Json.null
      else if c = 116 then expectLit cs [114, 117, 101] (Json.bool true)
      else if c = 102 then expectLit cs [97, 108, 115, 101] (Json.bool false)
      else none
  | f + 1, PM.arrTail, c :: cs =>
      if c = 93 then some (Json.arrNil, cs)
      else
        match parseF f PM.val (c :: cs) with
        | some (v, r) => (parseF f PM.arrRest (skipWs r)).map (fun p => (Json.arrCons v p.1, p.2))
        | none => none
  | f + 1, PM.arrRest, c :: cs =>
      if c = 93 then some (Json.arrNil, cs)
      else if c = 44 then
        match parseF f PM.val (skipWs cs) with
        | some (v, r) => (parseF f PM.arrRest (skipWs r)).map (fun p => (Json.arrCons v p.1, p.2))
        | none => none
      else none
  | f + 1, PM.objTail, c :: cs =>
      if c = 125 then some (Json.objNil, cs)
      else if c = 34 then
        match parseStrAux (cs.length + 1) cs with
        | some (k, r1) =>
          match skipWs r1 with
          | 58 :: r2 =>
            match parseF f PM.val (skipWs r2) with
            | some (v, r3) =>
              (parseF f PM.objRest (skipWs r3)).map (fun p => (Json.objCons k v p.1, p.2))
            | none => none
          | _ => none
        | none => none
      else none
  | f + 1, PM.objRest, c :: cs =>
      if c = 125 then some (Json.objNil, cs)
      else if c = 44 then
        match skipWs cs with
        | 34 :: cs2 =>
          match parseStrAux (cs2.length + 1) cs2 with
          | some (k, r1) =>
            match skipWs r1 with
            | 58 :: r2 =>
              match parseF f PM.val (skipWs r2) with
              | some (v, r3) =>
                (parseF f PM.objRest (skipWs r3)).map (fun p => (Json.objCons k v p.1, p.2))
              | none => none
            | _ => none
          | none => none
        | _ => none
      else none

/-- `json.loads`: skip leading whitespace, scan one value, skip trailing
whitespace, and require the input to be exhausted. -/
def jsonLoads (s : List Nat) : Option Json :=
  match parseF (2 * s.length + 4) PM.val (skipWs s) with
  | some (v, r) => if skipWs r = [] then some v else none
  | none => none

example : jsonLoads (dumpsJ (Json.objCons [97] (Json.num 3) Json.objNil)) =
    some (Json.objCons [97] (Json.num 3) Json.objNil) := by decide

example : dumpsJ (Json.arrCons (Json.str [97]) (Json.arrCons (Json.str [98]) Json.arrNil)) =
    [91, 34, 97, 34, 44, 32, 34, 98, 34, 93] := by decide

example : jsonLoads [120, 121, 122] = none := by decide

example : jsonLoads (dumpsJ (Json.num (-45))) = some (Json.num (-45)) := by decide

example : jsonLoads (dumpsJ (Json.str [10, 8364, 119070])) =
    some (Json.str [10, 8364, 119070]) := by decide

/-! ## UTF-8 and the native-messaging frame layer -/

/-- UTF-8 encoding of one code point (as done by `str.encode("utf-8")` for
scalar values). -/
def utf8EncodeChar (c : Nat) : List Nat :=
  if c < 128 then [c]
  else if c < 2048 then [192 + c / 64, 128 + c % 64]
  else if c < 65536 then [224 + c / 4096, 128 + c / 64 % 64, 128 + c % 64]
  else [240 + c / 262144, 128 + c / 4096 % 64, 128 + c / 64 % 64, 128 + c % 64]

/-- UTF-8 encoding of a string. -/
def utf8Encode : List Nat → List Nat
  | [] => []
  | c :: cs => utf8EncodeChar c ++ utf8Encode cs

/-- Decode one non-ASCII UTF-8 sequence given its lead byte and the rest of
the stream: the code point and the remaining bytes, or `none` on a malformed
sequence (continuation-byte errors, overlong forms, surrogates, values above
U+10FFFF), as in strict `bytes.decode("utf-8")`. -/
def utf8DecodeMulti (b : Nat) (bs : List Nat) : Option (Nat × List Nat) :=
  if b < 194 then none
  else if b < 224 then
    match bs with
    | b1 :: bs2 =>
      if 128 ≤ b1 ∧ b1 < 192 then some ((b - 192) * 64 + (b1 - 128), bs2) else none
    | [] => none
  else if b < 240 then
    match bs with
    | b1 :: b2 :: bs2 =>
      if (128 ≤ b1 ∧ b1 < 192) ∧ (128 ≤ b2 ∧ b2 < 192) then
        let u := (b - 224) * 4096 + (b1 - 128) * 64 + (b2 - 128)
        if u < 2048 ∨ (55296 ≤ u ∧ u ≤ 57343) then none else some (u, bs2)
      else none
    | _ => none
  else if b < 245 then
    match bs with
    | b1 :: b2 :: b3 :: bs2 =>
      if (128 ≤ b1 ∧ b1 < 192) ∧ (128 ≤ b2 ∧ b2 < 192) ∧ (128 ≤ b3 ∧ b3 < 192) then
        let u := (b - 240) * 262144 + (b1 - 128) * 4096 + (b2 - 128) * 64 + (b3 - 128)
        if u < 65536 ∨ 1114112 ≤ u then none else some (u, bs2)
      else none
    | _ => none
  else none

/-- Strict UTF-8 decoding loop, fuelled (one unit per decoded code point, so
`input.length + 1` always suffices). -/
def utf8DecodeAux : Nat → List Nat → Option (List Nat)
  | 0, _ => none
  | _ + 1, [] => some []
  | f + 1, b :: bs =>
      if b < 128 then (utf8DecodeAux f bs).map (fun s => b :: s)
      else
        match utf8DecodeMulti b bs with
        | some (u, rest) => (utf8DecodeAux f rest).map (fun s => u :: s)
        | none => none

/-- Strict UTF-8 decoding (as done by `bytes.decode("utf-8")`): the decoded
code points, or `none` on `UnicodeDecodeError`. -/
def utf8Decode (s : List Nat) : Option (List Nat) := utf8DecodeAux (s.length + 1) s

/-- The 4 bytes of `struct.pack("<I", n)` (little-endian unsigned 32-bit). -/
def encLE4 (n : Nat) : List Nat :=
  [n % 256, n / 256 % 256, n / 65536 % 256, n / 16777216 % 256]

/-- `struct.unpack("<I", b)[0]` on a 4-byte string. -/
def decLE4 : List Nat → Nat
  | [b0, b1, b2, b3] => b0 + 256 * b1 + 65536 * b2 + 16777216 * b3
  | _ => 0

/-- `send_to_extension`: serialize the message to UTF-8 JSON and emit the
4-byte little-endian length followed by the body.  `struct.pack("<I", ·)`
raises on a length of 2^32 or more; the surrounding `try` swallows the error,
so nothing is written in that case. -/
def sendToExtension (msg : Json) : List Nat :=
  let body := utf8Encode (dumpsJ msg)
  if body.length < 4294967296 then encLE4 body.length ++ body else []

/-- How one run of `read_native_messages` ended: `clean` for the `break`
statements (stream closed at a frame boundary), `errored` for an exception
that escaped to the outer handler (`struct.error`, `UnicodeDecodeError`, or an
`AttributeError` raised by `handle_extension_message` on a non-object). -/
inductive TermKind : Type
  | clean : TermKind
  | errored : TermKind
deriving DecidableEq

/-- Observable outcome of the read loop: the decoded messages handed to
`handle_extension_message` in order, the number of `Invalid JSON` log events,
and how the loop ended. -/
structure ReadResult : Type where
  delivered : List Json
  badJson : Nat
  term : TermKind
deriving DecidableEq

/-- One pass of the read loop over a byte stream, fuelled (one unit per
iteration; any continuing iteration consumes at least 5 bytes of input, so
fuel `input.length + 1` always suffices).  Mirrors `read_native_messages`:
read 4 length bytes (empty read breaks cleanly; a short read makes
`struct.unpack` raise), read `length` payload bytes (empty read breaks
cleanly), decode UTF-8 (failure escapes: only `json.JSONDecodeError` is caught
inside the loop), parse JSON (failure is logged and the loop continues), then
hand the message to `handle_extension_message` (which raises on a non-dict
because of `message.get`). -/
def readAux : Nat → List Nat → List Json → Nat → ReadResult
  | 0, _, acc, bad => ⟨acc, bad, TermKind.errored⟩
  | f + 1, s, acc, bad =>
      let lb := s.take 4
      if lb = [] then ⟨acc, bad, TermKind.clean⟩
      else if lb.length < 4 then ⟨acc, bad, TermKind.errored⟩
      else
        let len := decLE4 lb
        let s1 := s.drop 4
        let mb := s1.take len
        if mb = [] then ⟨acc, bad, TermKind.clean⟩
        else
          match utf8Decode mb with
          | none => ⟨acc, bad, TermKind.errored⟩
          | some txt =>
            match jsonLoads txt with
            | none => readAux f (s1.drop len) acc (bad + 1)
            | some m =>
              if isObj m then readAux f (s1.drop len) (acc ++ [m]) bad
              else ⟨acc ++ [m], bad, TermKind.errored⟩

/-- `read_native_messages` on a finite byte stream. -/
def readNativeMessages (s : List Nat) : ReadResult := readAux (s.length + 1) s [] 0

/-- `BufferedReader.read(n)` over a chunked delivery of the stream: collect
bytes across chunk boundaries until `n` bytes are available or the stream is
exhausted.  Returns the bytes read and the remaining chunks. -/
def bread : Nat → List (List Nat) → List Nat × List (List Nat)
  | _, [] => ([], [])
  | n, ch :: rest =>
      if n = 0 then ([], ch :: rest)
      else if n ≤ ch.length then (ch.take n, ch.drop n :: rest)
      else
        let p := bread (n - ch.length) rest
        (ch ++ p.1, p.2)

/-- The read loop over a chunked delivery of the same stream, each `read`
going through the buffered `bread`. -/
def readAuxChunks : Nat → List (List Nat) → List Json → Nat → ReadResult
  | 0, _, acc, bad => ⟨acc, bad, TermKind.errored⟩
  | f + 1, chunks, acc, bad =>
      let p4 := bread 4 chunks
      if p4.1 = [] then ⟨acc, bad, TermKind.clean⟩
      else if p4.1.length < 4 then ⟨acc, bad, TermKind.errored⟩
      else
        let len := decLE4 p4.1
        let pm := bread len p4.2
        if pm.1 = [] then ⟨acc, bad, TermKind.clean⟩
        else
          match utf8Decode pm.1 with
          | none => ⟨acc, bad, TermKind.errored⟩
          | some txt =>
            match jsonLoads txt with
            | none => readAuxChunks f pm.2 acc (bad + 1)
            | some m =>
              if isObj m then readAuxChunks f pm.2 (acc ++ [m]) bad
              else ⟨acc ++ [m], bad, TermKind.errored⟩

/-- `read_native_messages` when the stream is delivered in chunks. -/
def readNativeMessagesChunks (chunks : List (List Nat)) : ReadResult :=
  readAuxChunks (chunks.flatten.length + 1) chunks [] 0

/-! ## Bus-side service and message dispatch -/

/-- Code points of a Lean string literal, for writing protocol constants. -/
def strB (s : String) : List Nat := s.data.map (fun c => c.toNat)

example : strB "ab" = [97, 98] := by decide

/-- A signal emission on the session bus by `ChatGPTBuddyDBusService`. -/
inductive BusEmission : Type
  | automationCompleted : List Nat → BusEmission
  | automationEvent : List Nat → List Nat → BusEmission
deriving DecidableEq

/-- Json array of strings, as built from a decoded `signal.args` list.  The
wire contract (`SEND_DBUS_SIGNAL`) declares `args` as a list of strings, and
all arguments of `emit_automation_signal` are modelled at that type: Python's
`str()` on a `str` is the identity. -/
def listToJsonArr : List (List Nat) → Json
  | [] => Json.arrNil
  | s :: rest => Json.arrCons (Json.str s) (listToJsonArr rest)

/-- `ChatGPTBuddyDBusService.emit_automation_signal`: dispatch a requested
signal name and argument list onto the typed emitters, falling back to a
generic `AutomationEvent(signal_name, json.dumps(args))`. -/
def emit_automation_signal (signalName : List Nat) (args : List (List Nat)) : BusEmission :=
  if signalName = strB "AutomationCompleted" ∧ 1 ≤ args.length then
    BusEmission.automationCompleted (args.headD [])
  else if signalName = strB "AutomationEvent" ∧ 2 ≤ args.length then
    BusEmission.automationEvent (args.headD []) ((args.drop 1).headD [])
  else
    BusEmission.automationEvent signalName (dumpsJ (listToJsonArr args))

/-- `dict.get(key)`: first matching key of an object spine. -/
def jGet : Json → List Nat → Option Json
  | Json.objCons k v t, key => if k = key then some v else jGet t key
  | _, _ => none

/-- `dict.get(key, default)`. -/
def pyGet (msg : Json) (key : List Nat) (dflt : Json) : Json := (jGet msg key).getD dflt

/-- Log events recorded by the bridge code paths modelled here, kept as
structured data rather than formatted text. -/
inductive LogEvent : Type
  | unknownType : Json → LogEvent
  | emitted : List Nat → List (List Nat) → LogEvent
  | emitFailed : LogEvent
deriving DecidableEq

/-- Effects of handling one extension message: frames written back to the
extension, signals emitted on the bus, and log events. -/
structure HandlerEffects : Type where
  frames : List Json
  emissions : List BusEmission
  logs : List LogEvent
deriving DecidableEq

/-- Array spine of strings, or `none`.  Used to extract `signal.args`; an
`args` value that is not a list of strings is outside the modelled domain
(Python would coerce the elements with `str()`, or raise `TypeError` on a
non-list, caught by `emit_dbus_signal`'s handler). -/
def strListOfJson : Json → Option (List (List Nat))
  | Json.arrNil => some []
  | Json.arrCons (Json.str s) t => (strListOfJson t).map (fun l => s :: l)
  | _ => none

/-- `ChatGPTBuddyDBusMonitor.emit_dbus_signal`: read `interface` (computed but
unused by the code), `member` and `args` from the request with their defaults,
and emit through the service; any exception inside is caught and logged.  The
service is assumed registered (`hasattr(self, 'service')`), as after a
successful startup. -/
def emit_dbus_signal (signalData : Json) : HandlerEffects :=
  if isObj signalData then
    match pyGet signalData (strB "member") (Json.str (strB "AutomationEvent")),
          strListOfJson (pyGet signalData (strB "args") Json.arrNil) with
    | Json.str m, some args =>
        ⟨[], [emit_automation_signal m args], [LogEvent.emitted m args]⟩
    | _, _ => ⟨[], [], [LogEvent.emitFailed]⟩
  else ⟨[], [], [LogEvent.emitFailed]⟩

/-- The `PONG` reply frame. -/
def pongMsg (now : Int) : Json :=
  Json.objCons (strB "type") (Json.str (strB "PONG"))
    (Json.objCons (strB "timestamp") (Json.num now) Json.objNil)

/-- The `STATUS_UPDATE` reply frame of `send_status_update`. -/
def statusMsg (now : Int) (messageCount : Nat) : Json :=
  Json.objCons (strB "type") (Json.str (strB "STATUS_UPDATE"))
    (Json.objCons (strB "dbus_connected") (Json.bool true)
      (Json.objCons (strB "service_registered") (Json.bool true)
        (Json.objCons (strB "uptime") (Json.num now)
          (Json.objCons (strB "message_count") (Json.num (messageCount : Int)) Json.objNil))))

/-- `ChatGPTBuddyDBusMonitor.handle_extension_message`: dispatch a decoded
message on `message.get('type', 'unknown')`.  `none` models the
`AttributeError` a non-dict raises at `message.get`; timestamps are the
opaque `now` parameter and `messageCount` is the current queue length read by
`send_status_update`. -/
def handle_extension_message (now : Int) (messageCount : Nat) (msg : Json) :
    Option HandlerEffects :=
  if isObj msg then
    let t := pyGet msg (strB "type") (Json.str (strB "unknown"))
    some (
      if t = Json.str (strB "SEND_DBUS_SIGNAL") then
        emit_dbus_signal (pyGet msg (strB "signal") Json.objNil)
      else if t = Json.str (strB "PING") then ⟨[pongMsg now], [], []⟩
      else if t = Json.str (strB "GET_STATUS") then ⟨[statusMsg now messageCount], [], []⟩
      else ⟨[], [], [LogEvent.unknownType t]⟩)
  else none

/-! ## Log ring buffer -/

/-- The queue-trimming step of `log_message`: after an append, if the queue
holds more than 100 entries it is cut to its last 50
(`self.message_queue = self.message_queue[-50:]`). -/
def truncQueue (q : List Json) : List Json :=
  if 100 < q.length then q.drop (q.length - 50) else q

/-- One completed log operation on the ring buffer: append, then trim. -/
def logStep (q : List Json) (e : Json) : List Json := truncQueue (q ++ [e])

/-- The queue entry `log_message` appends. -/
def logEntry (now : Int) (text : List Nat) : Json :=
  Json.objCons (strB "type") (Json.str (strB "LOG_MESSAGE"))
    (Json.objCons (strB "message") (Json.str text)
      (Json.objCons (strB "timestamp") (Json.num now) Json.objNil))

/-- `ChatGPTBuddyDBusMonitor.log_message`: write to stderr (not modelled),
append a `LOG_MESSAGE`-shaped entry to the in-process queue and trim it.
The second component is the list of frames the call writes to the extension
channel: `log_message` performs no `send_to_extension` call, so it is `[]`. -/
def log_message (now : Int) (q : List Json) (text : List Nat) : List Json × List Json :=
  (logStep q (logEntry now text), [])

/-- `ChatGPTBuddyDBusService.ExecuteAutomation`: log the invocation, forward
one `DBUS_METHOD_CALL` frame to the extension, and return the literal
acknowledgement.  Takes the monitor's queue and returns (new queue, frames
written to the extension, return value). -/
def ExecuteAutomation (now : Int) (q : List Json) (data : List Nat) :
    List Json × List Json × List Nat :=
  let logText := strB "D-Bus method called: ExecuteAutomation(" ++ data ++ strB ")"
  let q1 := logStep q (logEntry now logText)
  let frame :=
    Json.objCons (strB "type") (Json.str (strB "DBUS_METHOD_CALL"))
      (Json.objCons (strB "method") (Json.str (strB "ExecuteAutomation"))
        (Json.objCons (strB "args") (Json.arrCons (Json.str data) Json.arrNil)
          (Json.objCons (strB "timestamp") (Json.num now) Json.objNil)))
  (q1, [frame], strB "automation_queued")

example : readNativeMessages (sendToExtension (Json.objCons [97] (Json.num 3) Json.objNil)) =
    ⟨[Json.objCons [97] (Json.num 3) Json.objNil], 0, TermKind.clean⟩ := by decide

example : readNativeMessages [5, 0, 0, 0, 97, 98] = ⟨[], 1, TermKind.clean⟩ := by decide

example : emit_dbus_signal Json.objNil =
    ⟨[], [BusEmission.automationEvent (strB "AutomationEvent") (strB "[]")],
      [LogEvent.emitted (strB "AutomationEvent") []]⟩ := by decide

/-! ## Helper lemmas: whitespace, hex digits, decimal digits -/

theorem skipWs_cons_of (c : Nat) (r : List Nat)
    (h : ¬(c = 32 ∨ c = 9 ∨ c = 10 ∨ c = 13)) : skipWs (c :: r) = c :: r := by
  simp only [skipWs, if_neg h]

theorem skipWs_ws_cons (c : Nat) (r : List Nat)
    (h : c = 32 ∨ c = 9 ∨ c = 10 ∨ c = 13) : skipWs (c :: r) = skipWs r := by
  simp only [skipWs, if_pos h]

theorem hexVal_hexDig : ∀ d : Nat, d < 16 → hexVal (hexDig d) = some d := by decide

theorem hexDig_lt (d : Nat) (h : d < 16) : hexDig d < 128 := by
  unfold hexDig; split <;> omega

/-- Digit characters of `natDigitsAux` with sufficient fuel. -/
theorem natDigitsAux_digits :
    ∀ f n, n < f → ∀ c ∈ natDigitsAux f n, 48 ≤ c ∧ c ≤ 57 := by
  intro f
  induction f with
  | zero => intro n hn; omega
  | succ f ih =>
    intro n hn c hc
    unfold natDigitsAux at hc
    by_cases h10 : n < 10
    · simp only [if_pos h10, List.mem_singleton] at hc; omega
    · simp only [if_neg h10, List.mem_append, List.mem_singleton] at hc
      rcases hc with hc | hc
      · exact ih (n / 10) (by omega) c hc
      · omega

/-- `natDigitsAux` with sufficient fuel is nonempty and its head is a nonzero
digit when `n` is positive. -/
theorem natDigitsAux_head :
    ∀ f n, n < f → ∃ d ds, natDigitsAux f n = d :: ds ∧ 48 ≤ d ∧ d ≤ 57 ∧ (1 ≤ n → 49 ≤ d) := by
  intro f
  induction f with
  | zero => intro n hn; omega
  | succ f ih =>
    intro n hn
    unfold natDigitsAux
    by_cases h10 : n < 10
    · exact ⟨48 + n, [], by simp [h10], by omega, by omega, by omega⟩
    · obtain ⟨d, ds, hds, h1, h2, h3⟩ := ih (n / 10) (by omega)
      refine ⟨d, ds ++ [48 + n % 10], ?_, h1, h2, fun _ => h3 (by omega)⟩
      simp [if_neg h10, hds]

/-- Consuming the rendered digits of `n` multiplies the accumulator by the
corresponding power of ten and adds `n`. -/
theorem parseDigitsAux_natDigitsAux :
    ∀ f n, n < f → ∀ rest acc,
      parseDigitsAux (natDigitsAux f n ++ rest) acc =
        parseDigitsAux rest (acc * 10 ^ (natDigitsAux f n).length + n) := by
  intro f
  induction f with
  | zero => intro n hn; omega
  | succ f ih =>
    intro n hn rest acc
    unfold natDigitsAux
    by_cases h10 : n < 10
    · simp only [if_pos h10, List.singleton_append, List.length_singleton]
      have : 48 ≤ 48 + n ∧ 48 + n ≤ 57 := by omega
      rw [parseDigitsAux, if_pos this]
      congr 1
      omega
    · simp only [if_neg h10, List.append_assoc, List.singleton_append, List.length_append,
        List.length_singleton]
      rw [ih (n / 10) (by omega)]
      have : 48 ≤ 48 + n % 10 ∧ 48 + n % 10 ≤ 57 := by omega
      rw [parseDigitsAux, if_pos this]
      congr 1
      have hp : 10 ^ ((natDigitsAux f (n / 10)).length + 1) =
          10 ^ (natDigitsAux f (n / 10)).length * 10 := by ring
      rw [hp]
      have := Nat.div_add_mod n 10
      ring_nf
      omega

/-- A non-digit head stops the digit scanner. -/
theorem parseDigitsAux_stop (rest : List Nat) (acc : Nat)
    (h : ∀ c cs, rest = c :: cs → ¬(48 ≤ c ∧ c ≤ 57)) :
    parseDigitsAux rest acc = (acc, rest) := by
  cases rest with
  | nil => rfl
  | cons c cs => rw [parseDigitsAux, if_neg (h c cs rfl)]

/-- Continuations that cannot extend or invalidate a rendered number literal:
empty, or starting with a character that is neither a digit nor `.`/`e`/`E`. -/
def NumDelim : List Nat → Prop
  | [] => True
  | c :: _ => ¬(48 ≤ c ∧ c ≤ 57) ∧ c ≠ 46 ∧ c ≠ 101 ∧ c ≠ 69

theorem floatGuard_of_delim (n : Nat) (rest : List Nat) (h : NumDelim rest) :
    floatGuard n rest = some (n, rest) := by
  cases rest with
  | nil => rfl
  | cons c cs =>
    obtain ⟨h1, h2, h3, h4⟩ := h
    rw [floatGuard, if_neg (by tauto)]

/-- The number scanner inverts `natDigits` before any benign continuation. -/
theorem parseNum_natDigits (n : Nat) (rest : List Nat) (h : NumDelim rest) :
    parseNum (natDigits n ++ rest) = some (n, rest) := by
  obtain ⟨d, ds, hds, h48, h57, hpos⟩ := natDigitsAux_head (n + 1) n (by omega)
  unfold natDigits
  rw [hds]
  by_cases hn : n = 0
  · subst hn
    have : natDigitsAux 1 0 = [48] := rfl
    rw [this] at hds
    obtain ⟨hd, hds'⟩ : d = 48 ∧ ds = [] := by
      constructor <;> [skip; skip] <;> cases hds <;> rfl
    subst hd; subst hds'
    simp only [List.singleton_append]
    rw [parseNum, if_pos rfl]
    exact floatGuard_of_delim 0 rest h
  · have hd49 : 49 ≤ d := hpos (by omega)
    have hkey : parseDigitsAux (ds ++ rest) (d - 48) = (n, rest) := by
      have h0 := parseDigitsAux_natDigitsAux (n + 1) n (by omega) rest 0
      rw [hds] at h0
      simp only [List.cons_append] at h0
      rw [parseDigitsAux, if_pos (by omega)] at h0
      simp only [Nat.zero_mul, Nat.zero_add, Nat.zero_mul] at h0
      have h0' : parseDigitsAux (ds ++ rest) (d - 48) = parseDigitsAux rest n := by
        simpa using h0
      rw [h0']
      apply parseDigitsAux_stop
      intro c cs hcs
      cases rest with
      | nil => cases hcs
      | cons c0 cs0 =>
        cases hcs
        exact h.1
    simp only [List.cons_append]
    rw [parseNum, if_neg (by omega), if_pos (by omega)]
    simp only [hkey]
    exact floatGuard_of_delim n rest h

/-! ## String scanner round-trip -/

/-- Scanning a `\uXXXX` escape of a non-high-surrogate value below 0x10000
yields that code point. -/
theorem parseStr_u_notSur (u : Nat) (tail : List Nat) (f : Nat)
    (hu : u < 65536) (hns : ¬(55296 ≤ u ∧ u ≤ 56319)) :
    parseStrAux (f + 1) (92 :: 117 :: (hex4 u ++ tail)) =
      mapConsStr u (parseStrAux f tail) := by
  have ha : hexVal (hexDig (u / 4096 % 16)) = some (u / 4096 % 16) :=
    hexVal_hexDig _ (Nat.mod_lt _ (by norm_num))
  have hb : hexVal (hexDig (u / 256 % 16)) = some (u / 256 % 16) :=
    hexVal_hexDig _ (Nat.mod_lt _ (by norm_num))
  have hc : hexVal (hexDig (u / 16 % 16)) = some (u / 16 % 16) :=
    hexVal_hexDig _ (Nat.mod_lt _ (by norm_num))
  have hd : hexVal (hexDig (u % 16)) = some (u % 16) :=
    hexVal_hexDig _ (Nat.mod_lt _ (by norm_num))
  have hval : u / 4096 % 16 * 4096 + u / 256 % 16 * 256 + u / 16 % 16 * 16 + u % 16 = u := by
    omega
  simp only [hex4, List.cons_append, List.nil_append, parseStrAux]
  norm_num
  simp only [ha, hb, hc, hd, hval]
  rw [if_neg hns]

/-- Scanning a high-surrogate escape immediately followed by a low-surrogate
escape combines the pair. -/
theorem parseStr_u_hi (chi clo : Nat) (tail : List Nat) (f : Nat)
    (h1 : 55296 ≤ chi) (h2 : chi ≤ 56319) (h3 : 56320 ≤ clo) (h4 : clo ≤ 57343) :
    parseStrAux (f + 1) (92 :: 117 :: (hex4 chi ++ (92 :: 117 :: (hex4 clo ++ tail)))) =
      mapConsStr (65536 + (chi - 55296) * 1024 + (clo - 56320)) (parseStrAux f tail) := by
  have ha : hexVal (hexDig (chi / 4096 % 16)) = some (chi / 4096 % 16) :=
    hexVal_hexDig _ (Nat.mod_lt _ (by norm_num))
  have hb : hexVal (hexDig (chi / 256 % 16)) = some (chi / 256 % 16) :=
    hexVal_hexDig _ (Nat.mod_lt _ (by norm_num))
  have hc : hexVal (hexDig (chi / 16 % 16)) = some (chi / 16 % 16) :=
    hexVal_hexDig _ (Nat.mod_lt _ (by norm_num))
  have hd : hexVal (hexDig (chi % 16)) = some (chi % 16) :=
    hexVal_hexDig _ (Nat.mod_lt _ (by norm_num))
  have ga : hexVal (hexDig (clo / 4096 % 16)) = some (clo / 4096 % 16) :=
    hexVal_hexDig _ (Nat.mod_lt _ (by norm_num))
  have gb : hexVal (hexDig (clo / 256 % 16)) = some (clo / 256 % 16) :=
    hexVal_hexDig _ (Nat.mod_lt _ (by norm_num))
  have gc : hexVal (hexDig (clo / 16 % 16)) = some (clo / 16 % 16) :=
    hexVal_hexDig _ (Nat.mod_lt _ (by norm_num))
  have gd : hexVal (hexDig (clo % 16)) = some (clo % 16) :=
    hexVal_hexDig _ (Nat.mod_lt _ (by norm_num))
  have hvhi : chi / 4096 % 16 * 4096 + chi / 256 % 16 * 256 + chi / 16 % 16 * 16 + chi % 16 =
      chi := by omega
  have hvlo : clo / 4096 % 16 * 4096 + clo / 256 % 16 * 256 + clo / 16 % 16 * 16 + clo % 16 =
      clo := by omega
  simp only [hex4, List.cons_append, List.nil_append, parseStrAux]
  norm_num
  simp only [ha, hb, hc, hd, ga, gb, gc, gd, hvhi, hvlo]
  rw [if_pos (by omega), if_pos (by omega)]


theorem parseStr_esc34 (f : Nat) (tail : List Nat) :
    parseStrAux (f + 1) (92 :: 34 :: tail) = mapConsStr 34 (parseStrAux f tail) := rfl

theorem parseStr_esc92 (f : Nat) (tail : List Nat) :
    parseStrAux (f + 1) (92 :: 92 :: tail) = mapConsStr 92 (parseStrAux f tail) := rfl

theorem parseStr_esc8 (f : Nat) (tail : List Nat) :
    parseStrAux (f + 1) (92 :: 98 :: tail) = mapConsStr 8 (parseStrAux f tail) := rfl

theorem parseStr_esc9 (f : Nat) (tail : List Nat) :
    parseStrAux (f + 1) (92 :: 116 :: tail) = mapConsStr 9 (parseStrAux f tail) := rfl

theorem parseStr_esc10 (f : Nat) (tail : List Nat) :
    parseStrAux (f + 1) (92 :: 110 :: tail) = mapConsStr 10 (parseStrAux f tail) := rfl

theorem parseStr_esc12 (f : Nat) (tail : List Nat) :
    parseStrAux (f + 1) (92 :: 102 :: tail) = mapConsStr 12 (parseStrAux f tail) := rfl

theorem parseStr_esc13 (f : Nat) (tail : List Nat) :
    parseStrAux (f + 1) (92 :: 114 :: tail) = mapConsStr 13 (parseStrAux f tail) := rfl

theorem parseStr_close (f : Nat) (rest : List Nat) :
    parseStrAux (f + 1) (34 :: rest) = some ([], rest) := rfl

/-- A plain (unescaped) character is consumed literally. -/
theorem parseStr_lit (c : Nat) (f : Nat) (tail : List Nat)
    (h1 : c ≠ 34) (h2 : c ≠ 92) (h3 : ¬c < 32) :
    parseStrAux (f + 1) (c :: tail) = mapConsStr c (parseStrAux f tail) := by
  conv_lhs => rw [parseStrAux.eq_def]
  simp only [if_neg h1, if_neg h2, if_neg h3]

/-- The escape of every character consumes exactly one unit of fuel. -/
theorem escChar_length_pos (c : Nat) : 1 ≤ (escChar c).length := by
  rw [escChar]
  repeat' split
  all_goals simp [hex4]

/-- One character step of the string scanner against the encoder. -/
theorem parseStr_escChar_step (c : Nat) (f : Nat) (tail : List Nat)
    (hc : scalarOKb c = true) :
    parseStrAux (f + 1) (escChar c ++ tail) = mapConsStr c (parseStrAux f tail) := by
  have hc1 : c < 1114112 := by
    simp only [scalarOKb, Bool.and_eq_true, decide_eq_true_eq] at hc
    exact hc.1
  have hc2 : ¬(55296 ≤ c ∧ c ≤ 57343) := by
    simp only [scalarOKb, Bool.and_eq_true, Bool.not_eq_true', Bool.and_eq_false_iff,
      decide_eq_true_eq, decide_eq_false_iff_not] at hc
    rcases hc.2 with h | h
    · exact fun hcc => h hcc.1
    · exact fun hcc => h hcc.2
  by_cases h34 : c = 34
  · subst h34; exact parseStr_esc34 f tail
  by_cases h92 : c = 92
  · subst h92; exact parseStr_esc92 f tail
  by_cases h8 : c = 8
  · subst h8; exact parseStr_esc8 f tail
  by_cases h9 : c = 9
  · subst h9; exact parseStr_esc9 f tail
  by_cases h10 : c = 10
  · subst h10; exact parseStr_esc10 f tail
  by_cases h12 : c = 12
  · subst h12; exact parseStr_esc12 f tail
  by_cases h13 : c = 13
  · subst h13; exact parseStr_esc13 f tail
  by_cases hlt32 : c < 32
  · have hesc : escChar c = 92 :: 117 :: hex4 c := by
      rw [escChar, if_neg h34, if_neg h92, if_neg h8, if_neg h9, if_neg h10, if_neg h12,
        if_neg h13, if_pos hlt32]
    rw [hesc, List.cons_append, List.cons_append]
    exact parseStr_u_notSur c tail f (by omega) (by omega)
  by_cases hlt127 : c < 127
  · have hesc : escChar c = [c] := by
      rw [escChar, if_neg h34, if_neg h92, if_neg h8, if_neg h9, if_neg h10, if_neg h12,
        if_neg h13, if_neg hlt32, if_pos hlt127]
    rw [hesc, List.singleton_append]
    exact parseStr_lit c f tail h34 h92 hlt32
  by_cases hbmp : c < 65536
  · have hesc : escChar c = 92 :: 117 :: hex4 c := by
      rw [escChar, if_neg h34, if_neg h92, if_neg h8, if_neg h9, if_neg h10, if_neg h12,
        if_neg h13, if_neg hlt32, if_neg hlt127, if_pos hbmp]
    rw [hesc, List.cons_append, List.cons_append]
    exact parseStr_u_notSur c tail f hbmp (by omega)
  · have hesc : escChar c =
        92 :: 117 :: hex4 (55296 + (c - 65536) / 1024) ++
          (92 :: 117 :: hex4 (56320 + (c - 65536) % 1024)) := by
      rw [escChar, if_neg h34, if_neg h92, if_neg h8, if_neg h9, if_neg h10, if_neg h12,
        if_neg h13, if_neg hlt32, if_neg hlt127, if_neg hbmp]
    have hshape : escChar c ++ tail =
        92 :: 117 :: (hex4 (55296 + (c - 65536) / 1024) ++
          (92 :: 117 :: (hex4 (56320 + (c - 65536) % 1024) ++ tail))) := by
      rw [hesc]
      simp [List.append_assoc]
    rw [hshape]
    have hkey := parseStr_u_hi (55296 + (c - 65536) / 1024) (56320 + (c - 65536) % 1024) tail f
      (by omega) (by omega) (by omega) (by omega)
    rw [hkey]
    have hcomb : 65536 + (55296 + (c - 65536) / 1024 - 55296) * 1024 +
        (56320 + (c - 65536) % 1024 - 56320) = c := by omega
    rw [hcomb]

/-- The string scanner inverts the encoder's escaping on scalar strings. -/
theorem parseStr_escString :
    ∀ s : List Nat, (∀ c ∈ s, scalarOKb c = true) →
      ∀ f rest, (escString s).length + 1 ≤ f →
        parseStrAux f (escString s ++ (34 :: rest)) = some (s, rest) := by
  intro s
  induction s with
  | nil =>
    intro _ f rest hf
    cases f with
    | zero => omega
    | succ f => exact parseStr_close f rest
  | cons c s ih =>
    intro hsc f rest hf
    have hc : scalarOKb c = true := hsc c (List.mem_cons_self c s)
    have hs : ∀ x ∈ s, scalarOKb x = true := fun x hx => hsc x (List.mem_cons_of_mem c hx)
    have hlen : (escString (c :: s)).length = (escChar c).length + (escString s).length := by
      simp [escString]
    have hec := escChar_length_pos c
    cases f with
    | zero => omega
    | succ f =>
      have hstep : escString (c :: s) ++ (34 :: rest) =
          escChar c ++ (escString s ++ (34 :: rest)) := by
        simp [escString, List.append_assoc]
      rw [hstep, parseStr_escChar_step c f _ hc]
      rw [ih hs f rest (by omega)]
      rfl

/-! ## Scanner step lemmas -/

theorem parseF_val_34 (f : Nat) (cs : List Nat) :
    parseF (f + 1) PM.val (34 :: cs) =
      (parseStrAux (cs.length + 1) cs).map (fun p => (Json.str p.1, p.2)) := rfl

theorem parseF_val_123 (f : Nat) (cs : List Nat) :
    parseF (f + 1) PM.val (123 :: cs) = parseF f PM.objTail (skipWs cs) := rfl

theorem parseF_val_91 (f : Nat) (cs : List Nat) :
    parseF (f + 1) PM.val (91 :: cs) = parseF f PM.arrTail (skipWs cs) := rfl

theorem parseF_val_45 (f : Nat) (cs : List Nat) :
    parseF (f + 1) PM.val (45 :: cs) =
      (parseNum cs).map (fun p => (Json.num (-(p.1 : Int)), p.2)) := rfl

theorem parseF_val_110 (f : Nat) (cs : List Nat) :
    parseF (f + 1) PM.val (110 :: cs) = expectLit cs [117, 108, 108] Json.null := rfl

theorem parseF_val_116 (f : Nat) (cs : List Nat) :
    parseF (f + 1) PM.val (116 :: cs) = expectLit cs [114, 117, 101] (Json.bool true) := rfl

theorem parseF_val_102 (f : Nat) (cs : List Nat) :
    parseF (f + 1) PM.val (102 :: cs) = expectLit cs [97, 108, 115, 101] (Json.bool false) := rfl

theorem parseF_val_digit (f : Nat) (c : Nat) (cs : List Nat) (h48 : 48 ≤ c) (h57 : c ≤ 57) :
    parseF (f + 1) PM.val (c :: cs) =
      (parseNum (c :: cs)).map (fun p => (Json.num (p.1 : Int), p.2)) := by
  conv_lhs => rw [parseF.eq_def]
  simp only []
  rw [if_neg (by omega), if_neg (by omega), if_neg (by omega), if_neg (by omega),
    if_pos ⟨h48, h57⟩]

theorem parseF_arrTail_93 (f : Nat) (cs : List Nat) :
    parseF (f + 1) PM.arrTail (93 :: cs) = some (Json.arrNil, cs) := rfl

theorem parseF_arrRest_93 (f : Nat) (cs : List Nat) :
    parseF (f + 1) PM.arrRest (93 :: cs) = some (Json.arrNil, cs) := rfl

theorem parseF_objTail_125 (f : Nat) (cs : List Nat) :
    parseF (f + 1) PM.objTail (125 :: cs) = some (Json.objNil, cs) := rfl

theorem parseF_objRest_125 (f : Nat) (cs : List Nat) :
    parseF (f + 1) PM.objRest (125 :: cs) = some (Json.objNil, cs) := rfl

theorem parseF_arrTail_step (f : Nat) (c : Nat) (cs : List Nat) (v : Json) (r : List Nat)
    (h93 : c ≠ 93) (hv : parseF f PM.val (c :: cs) = some (v, r)) :
    parseF (f + 1) PM.arrTail (c :: cs) =
      (parseF f PM.arrRest (skipWs r)).map (fun q => (Json.arrCons v q.1, q.2)) := by
  conv_lhs => rw [parseF.eq_def]
  simp only []
  rw [if_neg h93, hv]

theorem parseF_arrRest_44 (f : Nat) (cs : List Nat) (v : Json) (r : List Nat)
    (hv : parseF f PM.val (skipWs cs) = some (v, r)) :
    parseF (f + 1) PM.arrRest (44 :: cs) =
      (parseF f PM.arrRest (skipWs r)).map (fun q => (Json.arrCons v q.1, q.2)) := by
  conv_lhs => rw [parseF.eq_def]
  simp only []
  rw [if_neg (by omega)]
  simp only [if_true]
  rw [hv]

theorem parseF_objTail_34 (f : Nat) (cs : List Nat) (k : List Nat) (r1 r2 : List Nat)
    (v : Json) (r3 : List Nat)
    (hk : parseStrAux (cs.length + 1) cs = some (k, r1))
    (h58 : skipWs r1 = 58 :: r2)
    (hv : parseF f PM.val (skipWs r2) = some (v, r3)) :
    parseF (f + 1) PM.objTail (34 :: cs) =
      (parseF f PM.objRest (skipWs r3)).map (fun p => (Json.objCons k v p.1, p.2)) := by
  conv_lhs => rw [parseF.eq_def]
  simp only []
  rw [if_neg (by omega)]
  simp only [if_true]
  rw [hk]
  simp only []
  rw [h58]
  simp only []
  rw [hv]

theorem parseF_objRest_44 (f : Nat) (cs cs2 : List Nat) (k : List Nat) (r1 r2 : List Nat)
    (v : Json) (r3 : List Nat)
    (hsk : skipWs cs = 34 :: cs2)
    (hk : parseStrAux (cs2.length + 1) cs2 = some (k, r1))
    (h58 : skipWs r1 = 58 :: r2)
    (hv : parseF f PM.val (skipWs r2) = some (v, r3)) :
    parseF (f + 1) PM.objRest (44 :: cs) =
      (parseF f PM.objRest (skipWs r3)).map (fun p => (Json.objCons k v p.1, p.2)) := by
  conv_lhs => rw [parseF.eq_def]
  simp only []
  rw [if_neg (by omega)]
  simp only [if_true]
  rw [hsk]
  simp only []
  rw [hk]
  simp only []
  rw [h58]
  simp only []
  rw [hv]

/-! ## Head and delimiter facts about the encoder output -/

theorem natDigits_head (n : Nat) :
    ∃ d ds, natDigits n = d :: ds ∧ 48 ≤ d ∧ d ≤ 57 := by
  obtain ⟨d, ds, h, h1, h2, _⟩ := natDigitsAux_head (n + 1) n (by omega)
  exact ⟨d, ds, h, h1, h2⟩

/-- The first character of a rendered value is one of the scanner's accepted
first characters, and in particular is not whitespace, `]`, a closing brace,
or a comma. -/
theorem dumps_false_head (v : Json) :
    ∃ c cs, dumpsA false v = c :: cs ∧
      (c = 34 ∨ c = 123 ∨ c = 91 ∨ c = 45 ∨ (48 ≤ c ∧ c ≤ 57) ∨ c = 110 ∨ c = 116 ∨ c = 102) := by
  cases v with
  | null => exact ⟨110, _, rfl, by omega⟩
  | bool b => cases b with
    | true => exact ⟨116, _, rfl, by omega⟩
    | false => exact ⟨102, _, rfl, by omega⟩
  | num i =>
    by_cases hi : i < 0
    · refine ⟨45, natDigits i.natAbs, ?_, by omega⟩
      simp [dumpsA, if_pos hi]
    · obtain ⟨d, ds, h, h1, h2⟩ := natDigits_head i.toNat
      refine ⟨d, ds, ?_, by omega⟩
      simp [dumpsA, if_neg hi, h]
  | str s => exact ⟨34, _, rfl, by omega⟩
  | arrNil => exact ⟨91, _, rfl, by omega⟩
  | arrCons v t => exact ⟨91, _, rfl, by omega⟩
  | objNil => exact ⟨123, _, rfl, by omega⟩
  | objCons k v t => exact ⟨123, _, rfl, by omega⟩

/-- A rendered spine tail is empty or starts with the separator comma. -/
theorem dumps_true_shape (v : Json) :
    dumpsA true v = [] ∨ ∃ cs, dumpsA true v = 44 :: cs := by
  cases v with
  | arrCons v t => exact Or.inr ⟨_, rfl⟩
  | objCons k v t => exact Or.inr ⟨_, rfl⟩
  | null => exact Or.inl rfl
  | bool b => exact Or.inl rfl
  | num i => exact Or.inl rfl
  | str s => exact Or.inl rfl
  | arrNil => exact Or.inl rfl
  | objNil => exact Or.inl rfl

theorem skipWs_dumps_false (v : Json) (t : List Nat) :
    skipWs (dumpsA false v ++ t) = dumpsA false v ++ t := by
  obtain ⟨c, cs, h, hc⟩ := dumps_false_head v
  rw [h, List.cons_append]
  exact skipWs_cons_of c _ (by omega)

theorem numDelim_dumps_true (v : Json) (x : Nat) (rest : List Nat)
    (hx : x = 93 ∨ x = 125) : NumDelim (dumpsA true v ++ (x :: rest)) := by
  rcases dumps_true_shape v with h | ⟨cs, h⟩
  · rw [h, List.nil_append]
    exact ⟨by omega, by omega, by omega, by omega⟩
  · rw [h, List.cons_append]
    exact ⟨by omega, by omega, by omega, by omega⟩

theorem skipWs_dumps_true (v : Json) (x : Nat) (rest : List Nat)
    (hx : x = 93 ∨ x = 125) :
    skipWs (dumpsA true v ++ (x :: rest)) = dumpsA true v ++ (x :: rest) := by
  rcases dumps_true_shape v with h | ⟨cs, h⟩
  · rw [h, List.nil_append]
    exact skipWs_cons_of x _ (by omega)
  · rw [h, List.cons_append]
    exact skipWs_cons_of 44 _ (by omega)

/-- The scanner inverts the encoder: rendered values parse back to themselves
in value position; rendered spine tails parse back in continuation position
before their closing delimiter. -/
theorem parse_dumps (v : Json) :
    (wfJ v = true → ∀ f rest, 2 * (dumpsA false v).length + 2 ≤ f → NumDelim rest →
      parseF f PM.val (dumpsA false v ++ rest) = some (v, rest)) ∧
    (isArr v = true → wfJ v = true → ∀ f rest, 2 * (dumpsA true v).length + 2 ≤ f →
      parseF f PM.arrRest (dumpsA true v ++ (93 :: rest)) = some (v, rest)) ∧
    (isObj v = true → wfJ v = true → ∀ f rest, 2 * (dumpsA true v).length + 2 ≤ f →
      parseF f PM.objRest (dumpsA true v ++ (125 :: rest)) = some (v, rest)) := by
  induction v with
  | null =>
    refine ⟨?_, ?_, ?_⟩
    · intro _ f rest hf _
      cases f with
      | zero => simp [dumpsA] at hf
      | succ f1 => rfl
    · intro h; simp [isArr] at h
    · intro h; simp [isObj] at h
  | bool b =>
    refine ⟨?_, ?_, ?_⟩
    · intro _ f rest hf _
      cases b with
      | true =>
        cases f with
        | zero => simp [dumpsA] at hf
        | succ f1 => rfl
      | false =>
        cases f with
        | zero => simp [dumpsA] at hf
        | succ f1 => rfl
    · intro h; simp [isArr] at h
    · intro h; simp [isObj] at h
  | num i =>
    refine ⟨?_, ?_, ?_⟩
    · intro _ f rest hf hd
      by_cases hi : i < 0
      · have hdump : dumpsA false (Json.num i) = 45 :: natDigits i.natAbs := by
          simp [dumpsA, if_pos hi]
        rw [hdump] at hf ⊢
        cases f with
        | zero => simp at hf
        | succ f1 =>
          rw [List.cons_append, parseF_val_45, parseNum_natDigits i.natAbs rest hd]
          simp only [Option.map_some']
          have : -((i.natAbs : Int)) = i := by omega
          rw [this]
      · have hdump : dumpsA false (Json.num i) = natDigits i.toNat := by
          simp [dumpsA, if_neg hi]
        rw [hdump] at hf ⊢
        obtain ⟨d, ds, hds, h48, h57⟩ := natDigits_head i.toNat
        rw [hds] at hf ⊢
        cases f with
        | zero => simp at hf
        | succ f1 =>
          rw [List.cons_append, parseF_val_digit f1 d _ h48 h57, ← List.cons_append, ← hds,
            parseNum_natDigits i.toNat rest hd]
          simp only [Option.map_some']
          have : ((i.toNat : Nat) : Int) = i := by omega
          rw [this]
    · intro h; simp [isArr] at h
    · intro h; simp [isObj] at h
  | str s =>
    refine ⟨?_, ?_, ?_⟩
    · intro hwf f rest hf _
      simp only [wfJ] at hwf
      have hsc : ∀ c ∈ s, scalarOKb c = true := fun c hc => List.all_eq_true.mp hwf c hc
      have hshape : dumpsA false (Json.str s) ++ rest =
          34 :: (escString s ++ (34 :: rest)) := by
        simp [dumpsA, List.append_assoc]
      have hL : (dumpsA false (Json.str s)).length = (escString s).length + 2 := by
        simp [dumpsA]
      rw [hshape]
      cases f with
      | zero => omega
      | succ f1 =>
        rw [parseF_val_34]
        have hcl : (escString s ++ (34 :: rest)).length =
            (escString s).length + rest.length + 1 := by
          simp only [List.length_append, List.length_cons]
          omega
        rw [parseStr_escString s hsc _ rest (by omega)]
        rfl
    · intro h; simp [isArr] at h
    · intro h; simp [isObj] at h
  | arrNil =>
    refine ⟨?_, ?_, ?_⟩
    · intro _ f rest hf _
      have hshape : dumpsA false Json.arrNil ++ rest = 91 :: (93 :: rest) := by
        simp [dumpsA]
      rw [hshape]
      cases f with
      | zero => simp [dumpsA] at hf
      | succ f1 =>
        rw [parseF_val_91, skipWs_cons_of 93 rest (by omega)]
        cases f1 with
        | zero => simp [dumpsA] at hf
        | succ f2 => rw [parseF_arrTail_93]
    · intro _ _ f rest hf
      have hshape : dumpsA true Json.arrNil ++ (93 :: rest) = 93 :: rest := by
        simp [dumpsA]
      rw [hshape]
      cases f with
      | zero => simp [dumpsA] at hf
      | succ f1 =>
        rw [parseF_arrRest_93]
    · intro h; simp [isObj] at h
  | arrCons v t ihv iht =>
    refine ⟨?_, ?_, ?_⟩
    · intro hwf f rest hf _
      simp only [wfJ, Bool.and_eq_true] at hwf
      obtain ⟨⟨hwv, hat⟩, hwt⟩ := hwf
      have hL : (dumpsA false (Json.arrCons v t)).length =
          (dumpsA false v).length + (dumpsA true t).length + 2 := by
        simp [dumpsA]
        omega
      have hshape : dumpsA false (Json.arrCons v t) ++ rest =
          91 :: (dumpsA false v ++ (dumpsA true t ++ (93 :: rest))) := by
        simp [dumpsA, List.append_assoc]
      rw [hshape]
      cases f with
      | zero => omega
      | succ f1 =>
        rw [parseF_val_91, skipWs_dumps_false v _]
        cases f1 with
        | zero => omega
        | succ f2 =>
          have hv : parseF f2 PM.val (dumpsA false v ++ (dumpsA true t ++ (93 :: rest))) =
              some (v, dumpsA true t ++ (93 :: rest)) :=
            ihv.1 hwv f2 _ (by omega) (numDelim_dumps_true t 93 rest (Or.inl rfl))
          obtain ⟨c, cs0, hdv, hcr⟩ := dumps_false_head v
          rw [hdv, List.cons_append] at hv ⊢
          rw [parseF_arrTail_step f2 c _ v _ (by omega) hv]
          rw [skipWs_dumps_true t 93 rest (Or.inl rfl)]
          rw [iht.2.1 hat hwt f2 rest (by omega)]
          rfl
    · intro _ hwf f rest hf
      simp only [wfJ, Bool.and_eq_true] at hwf
      obtain ⟨⟨hwv, hat⟩, hwt⟩ := hwf
      have hL : (dumpsA true (Json.arrCons v t)).length =
          (dumpsA false v).length + (dumpsA true t).length + 2 := by
        simp [dumpsA]
      have hshape : dumpsA true (Json.arrCons v t) ++ (93 :: rest) =
          44 :: (32 :: (dumpsA false v ++ (dumpsA true t ++ (93 :: rest)))) := by
        simp [dumpsA, List.append_assoc]
      rw [hshape]
      cases f with
      | zero => omega
      | succ f1 =>
        have hv : parseF f1 PM.val
            (skipWs (32 :: (dumpsA false v ++ (dumpsA true t ++ (93 :: rest))))) =
            some (v, dumpsA true t ++ (93 :: rest)) := by
          rw [skipWs_ws_cons 32 _ (by omega), skipWs_dumps_false v _]
          exact ihv.1 hwv f1 _ (by omega) (numDelim_dumps_true t 93 rest (Or.inl rfl))
        rw [parseF_arrRest_44 f1 _ v _ hv]
        rw [skipWs_dumps_true t 93 rest (Or.inl rfl)]
        rw [iht.2.1 hat hwt f1 rest (by omega)]
        rfl
    · intro h; simp [isObj] at h
  | objNil =>
    refine ⟨?_, ?_, ?_⟩
    · intro _ f rest hf _
      have hshape : dumpsA false Json.objNil ++ rest = 123 :: (125 :: rest) := by
        simp [dumpsA]
      rw [hshape]
      cases f with
      | zero => simp [dumpsA] at hf
      | succ f1 =>
        rw [parseF_val_123, skipWs_cons_of 125 rest (by omega)]
        cases f1 with
        | zero => simp [dumpsA] at hf
        | succ f2 => rw [parseF_objTail_125]
    · intro h; simp [isArr] at h
    · intro _ _ f rest hf
      have hshape : dumpsA true Json.objNil ++ (125 :: rest) = 125 :: rest := by
        simp [dumpsA]
      rw [hshape]
      cases f with
      | zero => simp [dumpsA] at hf
      | succ f1 =>
        rw [parseF_objRest_125]
  | objCons k v t ihv iht =>
    refine ⟨?_, ?_, ?_⟩
    · intro hwf f rest hf _
      simp only [wfJ, Bool.and_eq_true] at hwf
      obtain ⟨⟨⟨hka, hwv⟩, hot⟩, hwt⟩ := hwf
      have hksc : ∀ c ∈ k, scalarOKb c = true := fun c hc => List.all_eq_true.mp hka c hc
      have hL : (dumpsA false (Json.objCons k v t)).length =
          (escString k).length + (dumpsA false v).length + (dumpsA true t).length + 6 := by
        simp [dumpsA]
        omega
      have hshape : dumpsA false (Json.objCons k v t) ++ rest =
          123 :: (34 :: (escString k ++
            (34 :: (58 :: (32 :: (dumpsA false v ++ (dumpsA true t ++ (125 :: rest)))))))) := by
        simp [dumpsA, List.append_assoc]
      rw [hshape]
      cases f with
      | zero => omega
      | succ f1 =>
        rw [parseF_val_123, skipWs_cons_of 34 _ (by omega)]
        cases f1 with
        | zero => omega
        | succ f2 =>
          have hcl : (escString k ++
              (34 :: (58 :: (32 :: (dumpsA false v ++ (dumpsA true t ++ (125 :: rest))))))).length =
              (escString k).length +
                ((dumpsA false v).length + (dumpsA true t).length + rest.length + 4) := by
            simp only [List.length_append, List.length_cons]
            omega
          have hk : parseStrAux ((escString k ++
              (34 :: (58 :: (32 :: (dumpsA false v ++ (dumpsA true t ++ (125 :: rest))))))).length + 1)
              (escString k ++
                (34 :: (58 :: (32 :: (dumpsA false v ++ (dumpsA true t ++ (125 :: rest))))))) =
              some (k, 58 :: (32 :: (dumpsA false v ++ (dumpsA true t ++ (125 :: rest))))) :=
            parseStr_escString k hksc _ _ (by omega)
          have h58 : skipWs (58 :: (32 :: (dumpsA false v ++ (dumpsA true t ++ (125 :: rest))))) =
              58 :: (32 :: (dumpsA false v ++ (dumpsA true t ++ (125 :: rest)))) :=
            skipWs_cons_of 58 _ (by omega)
          have hv : parseF f2 PM.val
              (skipWs (32 :: (dumpsA false v ++ (dumpsA true t ++ (125 :: rest))))) =
              some (v, dumpsA true t ++ (125 :: rest)) := by
            rw [skipWs_ws_cons 32 _ (by omega), skipWs_dumps_false v _]
            exact ihv.1 hwv f2 _ (by omega) (numDelim_dumps_true t 125 rest (Or.inr rfl))
          rw [parseF_objTail_34 f2 _ k _ _ v _ hk h58 hv]
          rw [skipWs_dumps_true t 125 rest (Or.inr rfl)]
          rw [iht.2.2 hot hwt f2 rest (by omega)]
          rfl
    · intro h; simp [isArr] at h
    · intro _ hwf f rest hf
      simp only [wfJ, Bool.and_eq_true] at hwf
      obtain ⟨⟨⟨hka, hwv⟩, hot⟩, hwt⟩ := hwf
      have hksc : ∀ c ∈ k, scalarOKb c = true := fun c hc => List.all_eq_true.mp hka c hc
      have hL : (dumpsA true (Json.objCons k v t)).length =
          (escString k).length + (dumpsA false v).length + (dumpsA true t).length + 6 := by
        simp [dumpsA]
        omega
      have hshape : dumpsA true (Json.objCons k v t) ++ (125 :: rest) =
          44 :: (32 :: (34 :: (escString k ++
            (34 :: (58 :: (32 :: (dumpsA false v ++ (dumpsA true t ++ (125 :: rest))))))))) := by
        simp [dumpsA, List.append_assoc]
      rw [hshape]
      cases f with
      | zero => omega
      | succ f1 =>
        have hsk : skipWs (32 :: (34 :: (escString k ++
            (34 :: (58 :: (32 :: (dumpsA false v ++ (dumpsA true t ++ (125 :: rest))))))))) =
            34 :: (escString k ++
              (34 :: (58 :: (32 :: (dumpsA false v ++ (dumpsA true t ++ (125 :: rest))))))) := by
          rw [skipWs_ws_cons 32 _ (by omega)]
          exact skipWs_cons_of 34 _ (by omega)
        have hcl : (escString k ++
            (34 :: (58 :: (32 :: (dumpsA false v ++ (dumpsA true t ++ (125 :: rest))))))).length =
            (escString k).length +
              ((dumpsA false v).length + (dumpsA true t).length + rest.length + 4) := by
          simp only [List.length_append, List.length_cons]
          omega
        have hk : parseStrAux ((escString k ++
            (34 :: (58 :: (32 :: (dumpsA false v ++ (dumpsA true t ++ (125 :: rest))))))).length + 1)
            (escString k ++
              (34 :: (58 :: (32 :: (dumpsA false v ++ (dumpsA true t ++ (125 :: rest))))))) =
            some (k, 58 :: (32 :: (dumpsA false v ++ (dumpsA true t ++ (125 :: rest))))) :=
          parseStr_escString k hksc _ _ (by omega)
        have h58 : skipWs (58 :: (32 :: (dumpsA false v ++ (dumpsA true t ++ (125 :: rest))))) =
            58 :: (32 :: (dumpsA false v ++ (dumpsA true t ++ (125 :: rest)))) :=
          skipWs_cons_of 58 _ (by omega)
        have hv : parseF f1 PM.val
            (skipWs (32 :: (dumpsA false v ++ (dumpsA true t ++ (125 :: rest))))) =
            some (v, dumpsA true t ++ (125 :: rest)) := by
          rw [skipWs_ws_cons 32 _ (by omega), skipWs_dumps_false v _]
          exact ihv.1 hwv f1 _ (by omega) (numDelim_dumps_true t 125 rest (Or.inr rfl))
        rw [parseF_objRest_44 f1 _ _ k _ _ v _ hsk hk h58 hv]
        rw [skipWs_dumps_true t 125 rest (Or.inr rfl)]
        rw [iht.2.2 hot hwt f1 rest (by omega)]
        rfl

/-- `json.loads` inverts `json.dumps` on well-formed values. -/
theorem jsonLoads_dumpsJ (v : Json) (hwf : wfJ v = true) :
    jsonLoads (dumpsJ v) = some v := by
  unfold jsonLoads dumpsJ
  have h1 : skipWs (dumpsA false v) = dumpsA false v := by
    have h := skipWs_dumps_false v []
    simpa using h
  rw [h1]
  have h2 := (parse_dumps v).1 hwf (2 * (dumpsA false v).length + 4) []
    (by omega) (by trivial)
  rw [List.append_nil] at h2
  rw [h2]
  rfl

/-! ## ASCII facts and UTF-8 -/

theorem natDigits_ascii (n : Nat) : ∀ c ∈ natDigits n, c < 128 := by
  intro c hc
  have := natDigitsAux_digits (n + 1) n (by omega) c hc
  omega

theorem hex4_ascii (u : Nat) : ∀ c ∈ hex4 u, c < 128 := by
  intro c hc
  simp only [hex4, List.mem_cons, List.not_mem_nil, or_false] at hc
  rcases hc with h | h | h | h <;> subst h <;>
    exact hexDig_lt _ (Nat.mod_lt _ (by norm_num))

theorem escHex_ascii (u : Nat) : ∀ b ∈ 92 :: 117 :: hex4 u, b < 128 := by
  intro b hb
  simp only [List.mem_cons] at hb
  rcases hb with h | h | h
  · omega
  · omega
  · exact hex4_ascii u b h

theorem escChar_ascii (c : Nat) : ∀ b ∈ escChar c, b < 128 := by
  by_cases h34 : c = 34
  · subst h34; decide
  by_cases h92 : c = 92
  · subst h92; decide
  by_cases h8 : c = 8
  · subst h8; decide
  by_cases h9 : c = 9
  · subst h9; decide
  by_cases h10 : c = 10
  · subst h10; decide
  by_cases h12 : c = 12
  · subst h12; decide
  by_cases h13 : c = 13
  · subst h13; decide
  by_cases hlt32 : c < 32
  · rw [escChar, if_neg h34, if_neg h92, if_neg h8, if_neg h9, if_neg h10, if_neg h12,
      if_neg h13, if_pos hlt32]
    exact escHex_ascii c
  by_cases hlt127 : c < 127
  · rw [escChar, if_neg h34, if_neg h92, if_neg h8, if_neg h9, if_neg h10, if_neg h12,
      if_neg h13, if_neg hlt32, if_pos hlt127]
    intro b hb
    simp only [List.mem_singleton] at hb
    omega
  by_cases hbmp : c < 65536
  · rw [escChar, if_neg h34, if_neg h92, if_neg h8, if_neg h9, if_neg h10, if_neg h12,
      if_neg h13, if_neg hlt32, if_neg hlt127, if_pos hbmp]
    exact escHex_ascii c
  · rw [escChar, if_neg h34, if_neg h92, if_neg h8, if_neg h9, if_neg h10, if_neg h12,
      if_neg h13, if_neg hlt32, if_neg hlt127, if_neg hbmp]
    intro b hb
    rcases List.mem_append.mp hb with h | h
    · exact escHex_ascii _ b h
    · exact escHex_ascii _ b h

theorem escString_ascii (s : List Nat) : ∀ b ∈ escString s, b < 128 := by
  induction s with
  | nil => intro b hb; simp [escString] at hb
  | cons c cs ih =>
    intro b hb
    simp only [escString, List.mem_append] at hb
    rcases hb with h | h
    · exact escChar_ascii c b h
    · exact ih b h

/-- `json.dumps` output with `ensure_ascii=True` is pure ASCII. -/
theorem dumps_ascii (v : Json) :
    (∀ b ∈ dumpsA false v, b < 128) ∧ (∀ b ∈ dumpsA true v, b < 128) := by
  induction v with
  | null => exact ⟨by decide, by decide⟩
  | bool b0 => cases b0 <;> exact ⟨by decide, by decide⟩
  | num i =>
    refine ⟨?_, by intro b hb; simp [dumpsA] at hb⟩
    intro b hb
    rw [dumpsA] at hb
    split at hb
    · simp only [List.mem_cons] at hb
      rcases hb with h | h
      · omega
      · exact natDigits_ascii _ b h
    · exact natDigits_ascii _ b hb
  | str s =>
    refine ⟨?_, by intro b hb; simp [dumpsA] at hb⟩
    intro b hb
    simp only [dumpsA] at hb
    rcases List.mem_cons.mp hb with h | h
    · omega
    · rcases List.mem_append.mp h with h2 | h2
      · exact escString_ascii s b h2
      · simp only [List.mem_singleton] at h2
        omega
  | arrNil => exact ⟨by decide, by decide⟩
  | arrCons v t ihv iht =>
    constructor
    · intro b hb
      simp only [dumpsA] at hb
      rcases List.mem_append.mp hb with h | h
      · rcases List.mem_cons.mp h with h2 | h2
        · omega
        · rcases List.mem_append.mp h2 with h3 | h3
          · exact ihv.1 b h3
          · exact iht.2 b h3
      · simp only [List.mem_singleton] at h
        omega
    · intro b hb
      simp only [dumpsA] at hb
      rcases List.mem_cons.mp hb with h | h
      · omega
      · rcases List.mem_cons.mp h with h2 | h2
        · omega
        · rcases List.mem_append.mp h2 with h3 | h3
          · exact ihv.1 b h3
          · exact iht.2 b h3
  | objNil => exact ⟨by decide, by decide⟩
  | objCons k v t ihv iht =>
    have hinner : ∀ b ∈ 34 :: escString k ++ [34] ++ (58 :: 32 :: dumpsA false v) ++
        dumpsA true t, b < 128 := by
      intro b hb
      rcases List.mem_append.mp hb with h | h
      · rcases List.mem_append.mp h with h2 | h2
        · rcases List.mem_cons.mp h2 with h3 | h3
          · omega
          · rcases List.mem_append.mp h3 with h4 | h4
            · exact escString_ascii k b h4
            · simp only [List.mem_singleton] at h4
              omega
        · rcases List.mem_cons.mp h2 with h3 | h3
          · omega
          · rcases List.mem_cons.mp h3 with h4 | h4
            · omega
            · exact ihv.1 b h4
      · exact iht.2 b h
    constructor
    · intro b hb
      simp only [dumpsA] at hb
      rcases List.mem_append.mp hb with h | h
      · rcases List.mem_cons.mp h with h2 | h2
        · omega
        · exact hinner b h2
      · simp only [List.mem_singleton] at h
        omega
    · intro b hb
      simp only [dumpsA] at hb
      rcases List.mem_cons.mp hb with h | h
      · omega
      · rcases List.mem_cons.mp h with h2 | h2
        · omega
        · exact hinner b h2

theorem utf8Encode_ascii (s : List Nat) (h : ∀ b ∈ s, b < 128) : utf8Encode s = s := by
  induction s with
  | nil => rfl
  | cons b bs ih =>
    have hb : b < 128 := h b (List.mem_cons_self b bs)
    rw [utf8Encode, utf8EncodeChar, if_pos hb, ih (fun x hx => h x (List.mem_cons_of_mem b hx))]
    rfl

theorem utf8DecodeAux_ascii :
    ∀ f s, s.length < f → (∀ b ∈ s, b < 128) → utf8DecodeAux f s = some s := by
  intro f
  induction f with
  | zero => intro s hs _; omega
  | succ f ih =>
    intro s hs h
    cases s with
    | nil => rfl
    | cons b bs =>
      have hb : b < 128 := h b (List.mem_cons_self b bs)
      have : utf8DecodeAux (f + 1) (b :: bs) =
          if b < 128 then (utf8DecodeAux f bs).map (fun s => b :: s)
          else
            match utf8DecodeMulti b bs with
            | some (u, rest) => (utf8DecodeAux f rest).map (fun s => u :: s)
            | none => none := rfl
      rw [this, if_pos hb,
        ih bs (by simp at hs; omega) (fun x hx => h x (List.mem_cons_of_mem b hx))]
      rfl

theorem utf8Decode_ascii (s : List Nat) (h : ∀ b ∈ s, b < 128) : utf8Decode s = some s :=
  utf8DecodeAux_ascii (s.length + 1) s (by omega) h

/-! ## Frame layer lemmas -/

theorem encLE4_len (n : Nat) : (encLE4 n).length = 4 := rfl

theorem encLE4_ne_nil (n : Nat) : encLE4 n ≠ [] := by simp [encLE4]

theorem decLE4_encLE4 (n : Nat) (h : n < 4294967296) : decLE4 (encLE4 n) = n := by
  simp only [encLE4, decLE4]
  omega

/-- When the sent length fits `struct.pack("<I", ·)`, `send_to_extension`
emits exactly the length prefix and the ASCII JSON body. -/
theorem sendToExtension_eq (M : Json) (h : (dumpsJ M).length < 4294967296) :
    sendToExtension M = encLE4 (dumpsJ M).length ++ dumpsJ M := by
  unfold sendToExtension
  rw [utf8Encode_ascii (dumpsJ M) (dumps_ascii M).1]
  rw [if_pos h]

/-- One full frame at the head of the stream: the loop consumes the length
prefix and exactly the declared payload, then handles the payload bytes. -/
theorem readAux_step (f : Nat) (body rest : List Nat) (acc : List Json) (bad : Nat)
    (hne : body ≠ []) (hlt : body.length < 4294967296) :
    readAux (f + 1) (encLE4 body.length ++ (body ++ rest)) acc bad =
      (match utf8Decode body with
       | none => ⟨acc, bad, TermKind.errored⟩
       | some txt =>
         match jsonLoads txt with
         | none => readAux f rest acc (bad + 1)
         | some m =>
           if isObj m then readAux f rest (acc ++ [m]) bad
           else ⟨acc ++ [m], bad, TermKind.errored⟩) := by
  have h1 : (encLE4 body.length ++ (body ++ rest)).take 4 = encLE4 body.length := by
    rw [List.take_append_of_le_length (by rw [encLE4_len])]
    exact List.take_of_length_le (by rw [encLE4_len])
  have h2 : (encLE4 body.length ++ (body ++ rest)).drop 4 = body ++ rest := by
    have h := List.drop_left (encLE4 body.length) (body ++ rest)
    rw [encLE4_len] at h
    exact h
  simp only [readAux]
  rw [h1, h2, if_neg (encLE4_ne_nil body.length), encLE4_len,
    if_neg (by omega : ¬(4 : Nat) < 4), decLE4_encLE4 body.length hlt,
    List.take_left, List.drop_left, if_neg hne]

theorem readAux_nil (f : Nat) (acc : List Json) (bad : Nat) :
    readAux (f + 1) [] acc bad = ⟨acc, bad, TermKind.clean⟩ := rfl

/-- A single well-formed frame whose payload decodes to an object is
delivered, and the loop then terminates cleanly at the frame boundary. -/
theorem readNativeMessages_single (body txt : List Nat) (m : Json)
    (hne : body ≠ []) (hlt : body.length < 4294967296)
    (hutf : utf8Decode body = some txt) (hjson : jsonLoads txt = some m)
    (hobj : isObj m = true) :
    readNativeMessages (encLE4 body.length ++ body) = ⟨[m], 0, TermKind.clean⟩ := by
  unfold readNativeMessages
  have hlen : (encLE4 body.length ++ body).length = body.length + 4 := by
    simp [encLE4]
  rw [hlen]
  have hb : encLE4 body.length ++ body = encLE4 body.length ++ (body ++ []) := by simp
  rw [hb, readAux_step _ body [] [] 0 hne hlt, hutf]
  simp only []
  rw [hjson]
  simp only []
  rw [if_pos hobj, readAux_nil]
  simp

/-- A frame whose payload is undecodable JSON is logged and skipped; an
immediately following well-formed frame is still delivered. -/
theorem readNativeMessages_badThenGood (badb goodb tb tg : List Nat) (m : Json)
    (hbne : badb ≠ []) (hblt : badb.length < 4294967296)
    (hbutf : utf8Decode badb = some tb) (hbjson : jsonLoads tb = none)
    (hgne : goodb ≠ []) (hglt : goodb.length < 4294967296)
    (hgutf : utf8Decode goodb = some tg) (hgjson : jsonLoads tg = some m)
    (hobj : isObj m = true) :
    readNativeMessages ((encLE4 badb.length ++ badb) ++ (encLE4 goodb.length ++ goodb)) =
      ⟨[m], 1, TermKind.clean⟩ := by
  unfold readNativeMessages
  have hlen : ((encLE4 badb.length ++ badb) ++ (encLE4 goodb.length ++ goodb)).length =
      badb.length + goodb.length + 8 := by
    simp [encLE4]
    omega
  rw [hlen]
  have hshape : (encLE4 badb.length ++ badb) ++ (encLE4 goodb.length ++ goodb) =
      encLE4 badb.length ++ (badb ++ (encLE4 goodb.length ++ goodb)) := by
    simp [List.append_assoc]
  rw [hshape, readAux_step _ badb _ [] 0 hbne hblt, hbutf]
  simp only []
  rw [hbjson]
  simp only []
  have hg : encLE4 goodb.length ++ goodb = encLE4 goodb.length ++ (goodb ++ []) := by simp
  rw [hg, readAux_step _ goodb [] [] 1 hgne hglt, hgutf]
  simp only []
  rw [hgjson]
  simp only []
  rw [if_pos hobj, readAux_nil]
  simp

/-! ## Chunked delivery -/

theorem bread_spec : ∀ (chunks : List (List Nat)) (n : Nat),
    (bread n chunks).1 = chunks.flatten.take n ∧
    (bread n chunks).2.flatten = chunks.flatten.drop n := by
  intro chunks
  induction chunks with
  | nil => intro n; simp [bread]
  | cons ch rest ih =>
    intro n
    rw [bread]
    by_cases h0 : n = 0
    · subst h0
      simp
    · by_cases hle : n ≤ ch.length
      · rw [if_neg h0, if_pos hle]
        constructor
        · simp [List.take_append_of_le_length hle]
        · simp [List.drop_append_of_le_length hle]
      · rw [if_neg h0, if_neg hle]
        obtain ⟨ih1, ih2⟩ := ih (n - ch.length)
        constructor
        · simp only [List.flatten_cons]
          rw [List.take_append_eq_append_take, List.take_of_length_le (by omega), ih1]
        · simp only [List.flatten_cons]
          rw [List.drop_append_eq_append_drop, List.drop_eq_nil_of_le (by omega), ih2,
            List.nil_append]

/-- The read loop is insensitive to how the stream is chunked: buffered reads
reassemble exactly the flat stream. -/
theorem readAuxChunks_eq :
    ∀ f chunks acc bad, readAuxChunks f chunks acc bad = readAux f chunks.flatten acc bad := by
  intro f
  induction f with
  | zero => intro chunks acc bad; rfl
  | succ f ih =>
    intro chunks acc bad
    obtain ⟨h41, h42⟩ := bread_spec chunks 4
    obtain ⟨hm1, hm2⟩ :=
      bread_spec (bread 4 chunks).2 (decLE4 (chunks.flatten.take 4))
    rw [h42] at hm1 hm2
    simp only [readAuxChunks, readAux, h41, hm1, hm2, ih]

theorem readNativeMessagesChunks_eq (chunks : List (List Nat)) :
    readNativeMessagesChunks chunks = readNativeMessages chunks.flatten := by
  unfold readNativeMessagesChunks readNativeMessages
  exact readAuxChunks_eq _ chunks [] 0

/-! ## Ring buffer lemmas -/

theorem logStep_length_le (q : List Json) (e : Json) (h : q.length ≤ 100) :
    (logStep q e).length ≤ 100 := by
  unfold logStep truncQueue
  by_cases h1 : 100 < (q ++ [e]).length
  · rw [if_pos h1]
    simp only [List.length_drop, List.length_append, List.length_singleton]
    omega
  · rw [if_neg h1]
    simp only [List.length_append, List.length_singleton]
    simp only [not_lt, List.length_append, List.length_singleton] at h1
    omega

theorem logStep_suffix (q : List Json) (e : Json) : logStep q e <:+ q ++ [e] := by
  unfold logStep truncQueue
  split
  · exact List.drop_suffix _ _
  · exact List.suffix_refl _

/-- After any sequence of log operations starting from the empty queue, the
buffer holds at most 100 entries and is a suffix of the insertion sequence
(the most recent insertions, in order). -/
theorem logFold_invariant (es : List Json) :
    (es.foldl logStep []).length ≤ 100 ∧ (es.foldl logStep []) <:+ es := by
  induction es using List.reverseRecOn with
  | nil => simp
  | append_singleton es e ih =>
    rw [List.foldl_append]
    simp only [List.foldl_cons, List.foldl_nil]
    refine ⟨logStep_length_le _ e ih.1, ?_⟩
    have h1 : logStep (es.foldl logStep []) e <:+ (es.foldl logStep []) ++ [e] :=
      logStep_suffix _ _
    have h2 : (es.foldl logStep []) ++ [e] <:+ es ++ [e] := by
      obtain ⟨t, ht⟩ := ih.2
      exact ⟨t, by rw [← List.append_assoc, ht]⟩
    exact h1.trans h2

/-- The entry appended by a log operation is the last element of the buffer
after the operation. -/
theorem logStep_getLast (q : List Json) (e : Json) :
    (logStep q e).getLast? = some e := by
  unfold logStep truncQueue
  by_cases h1 : 100 < (q ++ [e]).length
  · rw [if_pos h1]
    have hlen : (q ++ [e]).length = q.length + 1 := by simp
    have hle : (q ++ [e]).length - 50 ≤ q.length := by omega
    rw [List.drop_append_of_le_length hle]
    exact List.getLast?_concat _
  · rw [if_neg h1]
    exact List.getLast?_concat _

/-- The first 150 insertions, as log entries with distinct payloads. -/
def insertions150 : List Json := (List.range 150).map (fun i => Json.num (i : Int))

example : (insertions150.foldl logStep []).length = 99 := by decide

theorem skipWs_replicate_space (k : Nat) : skipWs (List.replicate k 32) = [] := by
  induction k with
  | zero => rfl
  | succ k ih =>
    rw [List.replicate_succ, skipWs_ws_cons 32 _ (Or.inl rfl)]
    exact ih

/-- An empty JSON object padded by trailing spaces parses to the empty
object, whatever the padding length. -/
theorem jsonLoads_brace_pad (k : Nat) :
    jsonLoads ([123, 125] ++ List.replicate k 32) = some Json.objNil := by
  unfold jsonLoads
  have hfl : 2 * (([123, 125] ++ List.replicate k 32) : List Nat).length + 4 =
      (2 * k + 7) + 1 := by
    simp
    omega
  rw [hfl]
  have hshape : ([123, 125] ++ List.replicate k 32 : List Nat) =
      123 :: (125 :: List.replicate k 32) := by simp
  rw [hshape, skipWs_cons_of 123 _ (by omega), parseF_val_123,
    skipWs_cons_of 125 _ (by omega)]
  have h7 : (2 * k + 7 : Nat) = (2 * k + 6) + 1 := by omega
  rw [h7, parseF_objTail_125]
  simp only []
  rw [skipWs_replicate_space k]
  rfl

/-! ## Claim theorems -/

/-- C1: for every well-formed message M (a JSON object), writing M with the
frame encoder (UTF-8 JSON body prefixed by its 4-byte little-endian byte
length) and running the read loop's decoder on those exact bytes delivers
exactly the message M, with no decode errors and clean termination. -/
theorem C1_frame_roundtrip (M : Json) (hwf : wfJ M = true) (hobj : isObj M = true)
    (hlen : (dumpsJ M).length < 4294967296) :
    readNativeMessages (sendToExtension M) = ⟨[M], 0, TermKind.clean⟩ := by
  rw [sendToExtension_eq M hlen]
  obtain ⟨c, cs, hdv, _⟩ := dumps_false_head M
  exact readNativeMessages_single (dumpsJ M) (dumpsJ M) M
    (by unfold dumpsJ; rw [hdv]; simp) hlen
    (utf8Decode_ascii _ (dumps_ascii M).1) (jsonLoads_dumpsJ M hwf) hobj

/-- C1 witness: the round-trip at a concrete message. -/
theorem C1_frame_roundtrip_wit :
    wfJ (Json.objCons [97] (Json.num 3) Json.objNil) = true ∧
    isObj (Json.objCons [97] (Json.num 3) Json.objNil) = true ∧
    (dumpsJ (Json.objCons [97] (Json.num 3) Json.objNil)).length < 4294967296 ∧
    readNativeMessages (sendToExtension (Json.objCons [97] (Json.num 3) Json.objNil)) =
      ⟨[Json.objCons [97] (Json.num 3) Json.objNil], 0, TermKind.clean⟩ :=
  ⟨by decide, by decide, by decide,
    C1_frame_roundtrip (Json.objCons [97] (Json.num 3) Json.objNil)
      (by decide) (by decide) (by decide)⟩

/-- C2 counterexample: after 150 insertions the buffer is NOT the most recent
100 insertions — it holds only 99 entries (the 101st insertion truncated the
buffer to 50, and 49 more were appended). -/
theorem C2_ring_counter :
    (insertions150.foldl logStep []).length = 99 ∧
    insertions150.foldl logStep [] ≠ insertions150.drop 50 := by
  constructor
  · decide
  · decide

/-- C2 amended: after each completed log operation the buffer holds at most
100 entries and they are a suffix of the insertion sequence (the most recent
insertions in order); after 150 insertions the buffer holds exactly the most
recent 99 insertions in order. -/
theorem C2_ring_amended :
    (∀ es : List Json,
      (es.foldl logStep []).length ≤ 100 ∧ (es.foldl logStep []) <:+ es) ∧
    insertions150.foldl logStep [] = insertions150.drop 51 := by
  refine ⟨fun es => logFold_invariant es, ?_⟩
  decide

/-- C3 counterexample: a frame declaring a 17 MiB length (beyond the claimed
16 MiB ceiling) is not rejected — the loop reads the full payload and
delivers the decoded message. -/
theorem C3_ceiling_counter :
    readNativeMessages (encLE4 17825792 ++ ([123, 125] ++ List.replicate 17825790 32)) =
      ⟨[Json.objNil], 0, TermKind.clean⟩ ∧ 16777216 < 17825792 := by
  refine ⟨?_, by norm_num⟩
  have hblen : ([123, 125] ++ List.replicate 17825790 32).length = 17825792 := by
    rw [List.length_append, List.length_replicate]
    rfl
  have hascii : ∀ b ∈ [123, 125] ++ List.replicate 17825790 32, b < 128 := by
    intro b hb
    rcases List.mem_append.mp hb with h | h
    · rcases List.mem_cons.mp h with h2 | h2
      · omega
      · simp only [List.mem_singleton] at h2
        omega
    · rcases List.mem_replicate.mp h with ⟨_, h2⟩
      omega
  have h := readNativeMessages_single ([123, 125] ++ List.replicate 17825790 32)
    ([123, 125] ++ List.replicate 17825790 32) Json.objNil
    (by rw [List.cons_append]; exact List.cons_ne_nil _ _) (by rw [hblen]; norm_num)
    (utf8Decode_ascii _ hascii) (jsonLoads_brace_pad 17825790) (by decide)
  rw [hblen] at h
  exact h

/-- C3 amended: the read loop enforces no length ceiling at all — for every
frame whose declared length equals its payload length and fits the 32-bit
prefix, the loop reads the payload and processes it (delivering the decoded
message when the payload is UTF-8 JSON for an object), no matter how far the
length exceeds 16 MiB. -/
theorem C3_no_ceiling_amended (body txt : List Nat) (m : Json)
    (hne : body ≠ []) (hlt : body.length < 4294967296)
    (hutf : utf8Decode body = some txt) (hjson : jsonLoads txt = some m)
    (hobj : isObj m = true) :
    readNativeMessages (encLE4 body.length ++ body) = ⟨[m], 0, TermKind.clean⟩ :=
  readNativeMessages_single body txt m hne hlt hutf hjson hobj

/-- C3 witness: the amended statement at a concrete frame. -/
theorem C3_no_ceiling_amended_wit :
    readNativeMessages (encLE4 ([123, 125] : List Nat).length ++ [123, 125]) =
      ⟨[Json.objNil], 0, TermKind.clean⟩ :=
  C3_no_ceiling_amended [123, 125] [123, 125] Json.objNil
    (by decide) (by decide) (by decide) (by decide) (by decide)

/-- C4 counterexample: premature EOF mid-payload (prefix declares 5 bytes but
only 2 arrive) is not a fatal channel error — the truncated payload is parsed
as JSON, the failure is logged as invalid JSON, and the loop then terminates
cleanly at the next frame boundary. -/
theorem C4_eof_counter :
    readNativeMessages [5, 0, 0, 0, 97, 98] = ⟨[], 1, TermKind.clean⟩ ∧
    (readNativeMessages [5, 0, 0, 0, 97, 98]).term ≠ TermKind.errored := by
  constructor
  · decide
  · decide

/-- C4 amended: the loop accumulates buffered reads until it has the 4 length
bytes and the declared payload, so any chunking of the stream — including one
byte at a time — yields exactly the result of the whole stream at once; zero
bytes read at a frame boundary terminates the loop cleanly; premature EOF
mid-payload is handled as a malformed frame (the truncated payload is parsed,
the failure logged) followed by clean termination, not a distinct fatal
channel error. -/
theorem C4_partial_read_amended :
    (∀ chunks : List (List Nat),
      readNativeMessagesChunks chunks = readNativeMessages chunks.flatten) ∧
    readNativeMessages [] = ⟨[], 0, TermKind.clean⟩ ∧
    readNativeMessages [5, 0, 0, 0, 97, 98] = ⟨[], 1, TermKind.clean⟩ := by
  refine ⟨readNativeMessagesChunks_eq, by decide, by decide⟩

/-- C5 counterexample: a malformed frame whose length prefix (5) exceeds the
actual payload (3 bytes) before the next frame desynchronizes the stream: the
read loop swallows the following well-formed frame's prefix as payload, and
that frame — which decodes to the empty object in isolation — is never
delivered. -/
theorem C5_desync_counter :
    readNativeMessages ([5, 0, 0, 0] ++ ([120, 121, 122] ++ ([2, 0, 0, 0] ++ [123, 125]))) =
      ⟨[], 1, TermKind.clean⟩ ∧
    readNativeMessages ([2, 0, 0, 0] ++ [123, 125]) =
      ⟨[Json.objNil], 0, TermKind.clean⟩ := by
  constructor
  · decide
  · decide

/-- C5 amended: only invalid-JSON malformed frames are isolated: a frame with
a correct length prefix whose payload fails JSON parsing is logged and
skipped, and the following well-formed frame is decoded exactly as in
isolation; a length prefix that does not match the actual byte count instead
desynchronizes the stream. -/
theorem C5_isolation_amended (badb goodb tb tg : List Nat) (m : Json)
    (hbne : badb ≠ []) (hblt : badb.length < 4294967296)
    (hbutf : utf8Decode badb = some tb) (hbjson : jsonLoads tb = none)
    (hgne : goodb ≠ []) (hglt : goodb.length < 4294967296)
    (hgutf : utf8Decode goodb = some tg) (hgjson : jsonLoads tg = some m)
    (hobj : isObj m = true) :
    readNativeMessages ((encLE4 badb.length ++ badb) ++ (encLE4 goodb.length ++ goodb)) =
      ⟨[m], 1, TermKind.clean⟩ ∧
    readNativeMessages (encLE4 goodb.length ++ goodb) = ⟨[m], 0, TermKind.clean⟩ :=
  ⟨readNativeMessages_badThenGood badb goodb tb tg m hbne hblt hbutf hbjson hgne hglt
    hgutf hgjson hobj,
   readNativeMessages_single goodb tg m hgne hglt hgutf hgjson hobj⟩

/-- C5 witness: the amended statement at concrete frames (payload "x" is not
JSON; the following empty-object frame is still delivered). -/
theorem C5_isolation_amended_wit :
    readNativeMessages ((encLE4 ([120] : List Nat).length ++ [120]) ++
        (encLE4 ([123, 125] : List Nat).length ++ [123, 125])) =
      ⟨[Json.objNil], 1, TermKind.clean⟩ ∧
    readNativeMessages (encLE4 ([123, 125] : List Nat).length ++ [123, 125]) =
      ⟨[Json.objNil], 0, TermKind.clean⟩ :=
  C5_isolation_amended [120] [123, 125] [120] [123, 125] Json.objNil
    (by decide) (by decide) (by decide) (by decide) (by decide) (by decide)
    (by decide) (by decide) (by decide)

/-- C6: the dynamic signal emitter dispatches by name and arity —
`AutomationCompleted` with at least one argument emits the typed completion
signal with the first argument; `AutomationEvent` with at least two arguments
emits the typed event signal with the first two; every other request falls
back to `AutomationEvent(signalName, jsonEncode(args))`, so every requested
emission reaches the bus; in particular `CustomEvent` with `["a","b","c"]`
yields `AutomationEvent("CustomEvent", "[\"a\", \"b\", \"c\"]")`. -/
theorem C6_dynamic_emit :
    (∀ (a : List Nat) (rest : List (List Nat)),
      emit_automation_signal (strB "AutomationCompleted") (a :: rest) =
        BusEmission.automationCompleted a) ∧
    (∀ (a b : List Nat) (rest : List (List Nat)),
      emit_automation_signal (strB "AutomationEvent") (a :: b :: rest) =
        BusEmission.automationEvent a b) ∧
    (∀ (name : List Nat) (args : List (List Nat)),
      ¬(name = strB "AutomationCompleted" ∧ 1 ≤ args.length) →
      ¬(name = strB "AutomationEvent" ∧ 2 ≤ args.length) →
      emit_automation_signal name args =
        BusEmission.automationEvent name (dumpsJ (listToJsonArr args))) ∧
    emit_automation_signal (strB "CustomEvent") [strB "a", strB "b", strB "c"] =
      BusEmission.automationEvent (strB "CustomEvent") (strB "[\"a\", \"b\", \"c\"]") := by
  refine ⟨?_, ?_, ?_, ?_⟩
  · intro a rest
    unfold emit_automation_signal
    rw [if_pos ⟨rfl, by simp⟩]
    rfl
  · intro a b rest
    unfold emit_automation_signal
    rw [if_neg (fun h => absurd h.1 (by decide)), if_pos ⟨rfl, by simp⟩]
    rfl
  · intro name args h1 h2
    unfold emit_automation_signal
    rw [if_neg h1, if_neg h2]
  · decide

/-- C6 witness: the fallback conjunct at a concrete unknown name with an
empty argument list. -/
theorem C6_dynamic_emit_wit :
    emit_automation_signal (strB "Shutdown") [] =
      BusEmission.automationEvent (strB "Shutdown") (dumpsJ (listToJsonArr [])) :=
  C6_dynamic_emit.2.2.1 (strB "Shutdown") [] (by decide) (by decide)

/-- C7: invoking `ExecuteAutomation(data)` returns the literal
`"automation_queued"` and writes exactly one frame to the peer, a
`DBUS_METHOD_CALL` message whose `args` field is the one-element list
`[data]`; the return value is the same for every input and state, never
depending on any processing by the peer. -/
theorem C7_execute_automation (now : Int) (q : List Json) (data : List Nat) :
    (ExecuteAutomation now q data).2.2 = strB "automation_queued" ∧
    (ExecuteAutomation now q data).2.1.length = 1 ∧
    ∀ frame ∈ (ExecuteAutomation now q data).2.1,
      jGet frame (strB "type") = some (Json.str (strB "DBUS_METHOD_CALL")) ∧
      jGet frame (strB "args") = some (Json.arrCons (Json.str data) Json.arrNil) := by
  refine ⟨rfl, rfl, ?_⟩
  intro frame hf
  simp only [ExecuteAutomation, List.mem_singleton] at hf
  subst hf
  constructor
  · simp only [jGet]
    simp only [if_true]
  · simp only [jGet]
    simp only [if_true]
    rw [if_neg (by decide), if_neg (by decide)]

/-- C8 counterexample: a log write sends nothing on the outbound framed
channel — the frames component of `log_message` is empty, against the claim
that every log write is forwarded as a `LOG_MESSAGE` frame. -/
theorem C8_no_forward_counter :
    (log_message 0 [] (strB "monitor started")).2 = [] := rfl

/-- C8 amended: every log write is recorded in the bounded in-process queue
as a `LOG_MESSAGE`-typed entry (becoming the most recent entry), but no frame
is sent to the peer — `log_message` never calls `send_to_extension`, and the
queue is never drained to the framed channel. -/
theorem C8_log_local_amended (now : Int) (q : List Json) (text : List Nat) :
    (log_message now q text).2 = [] ∧
    (log_message now q text).1 = logStep q (logEntry now text) ∧
    jGet (logEntry now text) (strB "type") = some (Json.str (strB "LOG_MESSAGE")) ∧
    (log_message now q text).1.getLast? = some (logEntry now text) := by
  refine ⟨rfl, rfl, ?_, ?_⟩
  · simp only [logEntry, jGet]
    simp only [if_true]
  · exact logStep_getLast q (logEntry now text)

/-- C9: a decoded peer message that is an object with no `type` field is
dispatched totally (no exception): no frame is written, no bus signal is
emitted, and one unknown-message-type log entry is recorded with the literal
default type string `"unknown"` — exactly as for a message whose type string
is `"unknown"`. -/
theorem C9_unknown_type (now : Int) (mc : Nat) (m : Json)
    (hobj : isObj m = true) (hno : jGet m (strB "type") = none) :
    handle_extension_message now mc m =
      some ⟨[], [], [LogEvent.unknownType (Json.str (strB "unknown"))]⟩ ∧
    handle_extension_message now mc m =
      handle_extension_message now mc
        (Json.objCons (strB "type") (Json.str (strB "unknown")) m) := by
  have hu1 : Json.str (strB "unknown") ≠ Json.str (strB "SEND_DBUS_SIGNAL") := by decide
  have hu2 : Json.str (strB "unknown") ≠ Json.str (strB "PING") := by decide
  have hu3 : Json.str (strB "unknown") ≠ Json.str (strB "GET_STATUS") := by decide
  have hmain : handle_extension_message now mc m =
      some ⟨[], [], [LogEvent.unknownType (Json.str (strB "unknown"))]⟩ := by
    unfold handle_extension_message
    rw [if_pos hobj]
    simp only [pyGet, hno, Option.getD_none]
    rw [if_neg hu1, if_neg hu2, if_neg hu3]
  refine ⟨hmain, ?_⟩
  rw [hmain]
  unfold handle_extension_message
  rw [if_pos (show isObj (Json.objCons (strB "type") (Json.str (strB "unknown")) m) =
    true from rfl)]
  simp only [pyGet, jGet, if_true, Option.getD_some]
  rw [if_neg hu1, if_neg hu2, if_neg hu3]

/-- C9 witness: the empty object has no `type` field and is handled like an
`"unknown"`-typed message. -/
theorem C9_unknown_type_wit :
    isObj Json.objNil = true ∧ jGet Json.objNil (strB "type") = none ∧
    (handle_extension_message 0 0 Json.objNil =
      some ⟨[], [], [LogEvent.unknownType (Json.str (strB "unknown"))]⟩ ∧
    handle_extension_message 0 0 Json.objNil =
      handle_extension_message 0 0
        (Json.objCons (strB "type") (Json.str (strB "unknown")) Json.objNil)) :=
  ⟨by decide, by decide, C9_unknown_type 0 0 Json.objNil (by decide) (by decide)⟩

/-- C10: a `SEND_DBUS_SIGNAL` whose signal object omits the `member` and
`args` fields gets the defaults — member `"AutomationEvent"`, args `[]` — so
the emission falls back to `AutomationEvent("AutomationEvent",
jsonEncode([]))`, i.e. event data `"[]"`, rather than an error; in particular
the empty signal object produces exactly that bus emission. -/
theorem C10_signal_defaults (sd : Json) (hobj : isObj sd = true)
    (hm : jGet sd (strB "member") = none) (ha : jGet sd (strB "args") = none) :
    emit_dbus_signal sd =
      ⟨[], [BusEmission.automationEvent (strB "AutomationEvent") (strB "[]")],
        [LogEvent.emitted (strB "AutomationEvent") []]⟩ ∧
    emit_dbus_signal Json.objNil =
      ⟨[], [BusEmission.automationEvent (strB "AutomationEvent") (strB "[]")],
        [LogEvent.emitted (strB "AutomationEvent") []]⟩ := by
  refine ⟨?_, by decide⟩
  unfold emit_dbus_signal
  rw [if_pos hobj]
  simp only [pyGet, hm, ha, Option.getD_none]
  have he : emit_automation_signal (strB "AutomationEvent") [] =
      BusEmission.automationEvent (strB "AutomationEvent") (strB "[]") := by decide
  simp only [strListOfJson]
  rw [he]

/-- C10 witness: the defaults at the empty signal object. -/
theorem C10_signal_defaults_wit :
    emit_dbus_signal Json.objNil =
      ⟨[], [BusEmission.automationEvent (strB "AutomationEvent") (strB "[]")],
        [LogEvent.emitted (strB "AutomationEvent") []]⟩ :=
  (C10_signal_defaults Json.objNil (by decide) (by decide) (by decide)).1
